import Mathlib

/-!
Verification of the core LP/MILP solver engine of `mcp-optimizer`
(`src/mcp_optimizer/lp/utils.py`, `src/mcp_optimizer/lp/simplex.py`,
`src/mcp_optimizer/mip/branch_and_cut.py`) against its natural-language
specification.

The Python code is shallowly embedded over exact rationals (`ℚ`):

* numpy vectors become `List ℚ`, matrices become a list of rows plus an
  explicit column count (matching `A.shape`);
* `np.linalg.solve` is modelled as the exact solution of a square linear
  system (Cramer's rule), returning `none` exactly when the matrix is
  singular, which is when numpy raises `LinAlgError`;
* IEEE doubles become rationals; all tolerance constants (`1e-9`, `1e-12`)
  are exact rationals;
* Python dicts keyed by variable/constraint names become association lists
  built in the source's insertion order;
* the two unbounded `while` loops (`_run_simplex`, the branch-and-bound
  node loop) are embedded with an explicit fuel parameter.  Both loops
  increment a counter on every pass and stop once the counter reaches a
  bound, so fuel `bound + 1` (respectively `max_nodes`) makes the
  fuel-exhaustion branch unreachable; the unreachable branch returns the
  same shape of result as the source's iteration-limit exit.
-/

namespace MCPOpt

/-- Solution status, `schemas.py` `LPSolution.status` (a string literal type
in the source). -/
inductive Status where
  | optimal
  | infeasible
  | unbounded
  | iteration_limit
deriving DecidableEq, Repr

/-- Optimization sense, `schemas.py` `Sense = Literal["min", "max"]`. -/
inductive Sense where
  | min
  | max
deriving DecidableEq, Repr

/-- Comparator, `schemas.py` `Cmp = Literal["<=", ">=", "=="]`. -/
inductive Cmp where
  | le
  | ge
  | eq
deriving DecidableEq, Repr

/-- Pivot rule, `schemas.py` `SolveOptions.pivot_rule`. -/
inductive PivotRule where
  | dantzig
  | bland
deriving DecidableEq, Repr

/-- `schemas.py` `Variable`.  Bounds are `Option ℚ` with `none` for the
absent bound; the source additionally collapses `float("-inf")` lower and
`float("+inf")` upper bounds to `None` in `build_standard_form`, which the
rational embedding cannot distinguish from `none`. -/
structure Variable where
  name : String
  lb : Option ℚ := none
  ub : Option ℚ := none
  is_integer : Bool := false
deriving DecidableEq, Repr

/-- `schemas.py` `LinearTerm`. -/
structure LinearTerm where
  var : String
  coef : ℚ
deriving DecidableEq, Repr

/-- `schemas.py` `LinearExpr`. -/
structure LinearExpr where
  terms : List LinearTerm := []
  constant : ℚ := 0
deriving DecidableEq, Repr

/-- `schemas.py` `Constraint`. -/
structure Constraint where
  name : String
  lhs : LinearExpr
  cmp : Cmp
  rhs : ℚ
deriving DecidableEq, Repr

/-- `schemas.py` `LPModel`.  The field `variables` of the source is named
`vars` here because `variables` is a Lean command name. -/
structure LPModel where
  name : String := "problem"
  sense : Sense
  objective : LinearExpr
  vars : List Variable
  constraints : List Constraint
deriving DecidableEq, Repr

/-- Default tolerance `1e-9` from `schemas.py` `SolveOptions.tol`. -/
def default_tol : ℚ := 1 / 1000000000

/-- Snapping threshold `1e-12` used by the solution mapper and by
`build_standard_form`'s right-hand-side cleanup. -/
def tiny_eps : ℚ := 1 / 1000000000000

/-- `schemas.py` `SolveOptions`. -/
structure SolveOptions where
  max_iters : Nat := 10000
  tol : ℚ := default_tol
  pivot_rule : PivotRule := .dantzig
  return_duals : Bool := true
deriving DecidableEq, Repr

/-- `schemas.py` `LPSolution`.  The maps `x`, `reduced_costs`, `duals` are
association lists in the insertion order of the source's dicts. -/
structure LPSolution where
  status : Status
  objective_value : Option ℚ
  x : Option (List (String × ℚ))
  reduced_costs : Option (List (String × ℚ))
  duals : Option (List (String × ℚ))
  iterations : Nat
  message : String := ""
deriving DecidableEq, Repr

/-! ### Exact linear algebra (model of the numpy calls) -/

/-- Vector of rationals (a 1-d numpy array). -/
abbrev Vec := List ℚ

/-- Matrix with an explicit column count, mirroring `A.shape = (m, n)`:
`rows.length` is `m` and `ncols` is `n` (needed because an `m = 0` matrix
still carries its column count in numpy). -/
structure Mat where
  rows : List (List ℚ)
  ncols : Nat
deriving DecidableEq, Repr

/-- Dot product of two vectors (`@` on 1-d arrays). -/
def dotL (a b : Vec) : ℚ := (a.zip b).foldl (fun acc p => acc + p.1 * p.2) 0

/-- Column `j` of a matrix, `A[:, j]`. -/
def colOf (A : Mat) (j : Nat) : Vec := A.rows.map (fun r => r.getD j 0)

/-- Column submatrix `A[:, basis]` (as a plain list of rows; it is square
whenever `basis` has one entry per row, which the initial basis does). -/
def subCols (A : Mat) (basis : List Nat) : List (List ℚ) :=
  A.rows.map (fun r => basis.map (fun j => r.getD j 0))

/-- Transpose of a row-list with `k` columns, `B.T`. -/
def transposeOf (rows : List (List ℚ)) (k : Nat) : List (List ℚ) :=
  (List.range k).map (fun i => rows.map (fun r => r.getD i 0))

/-- Laplace expansion along the first row, with fuel equal to the row
count so the recursion is structural. -/
def detAux : Nat → List (List ℚ) → ℚ
  | 0, _ => 1
  | _ + 1, [] => 1
  | fuel + 1, r :: rest =>
      r.enum.foldl
        (fun acc p =>
          acc + (if p.1 % 2 = 0 then p.2 else -p.2) *
            detAux fuel (rest.map (fun row => row.eraseIdx p.1)))
        0

/-- Determinant of a square row-list. -/
def detL (rows : List (List ℚ)) : ℚ := detAux rows.length rows

/-- Replace column `i` of each row by the entries of `v`. -/
def replaceCol (rows : List (List ℚ)) (i : Nat) (v : Vec) : List (List ℚ) :=
  (rows.zip v).map (fun p => p.1.set i p.2)

/-- Exact solution of the square system `rows · x = v` by Cramer's rule;
`none` exactly when the matrix is singular.  This models
`np.linalg.solve`, whose `LinAlgError` corresponds to the `none` case. -/
def linSolve (rows : List (List ℚ)) (v : Vec) : Option Vec :=
  let dt := detL rows
  if dt = 0 then none
  else some ((List.range rows.length).map
    (fun i => detL (replaceCol rows i v) / dt))

/-- Modelled from the spec: the `np.linalg.lstsq` fallback that
`_run_simplex` and `_basic_solution` use when the basis matrix is
singular ("dense LU with a least-squares fallback when the basis matrix
is numerically singular; this should not occur if invariants hold").
The SVD-based minimum-norm least-squares solution is floating-point
library code with no exact counterpart here; it is modelled as the zero
vector of the right length.  No settled claim evaluates this branch: every
concrete run in this file keeps the basis matrix invertible, and every
universal theorem below is independent of the numeric value returned
here. -/
def lstsq_fallback (_rows : List (List ℚ)) (v : Vec) : Vec :=
  v.map (fun _ => 0)

/-- `np.linalg.solve` wrapped in the source's `try/except` that falls back
to `np.linalg.lstsq`.  At the direction solve (`simplex.py` line 296) the
source calls `np.linalg.solve` without the fallback and would raise on a
singular matrix; that branch is unreachable from an invertible basis,
and the embedding totalises it with the same fallback. -/
def npSolve (rows : List (List ℚ)) (v : Vec) : Vec :=
  (linSolve rows v).getD (lstsq_fallback rows v)

/-- Clamp entries with `|a| < tol` to `0`, `x[np.abs(x) < tol] = 0.0`. -/
def clampVec (tol : ℚ) (v : Vec) : Vec :=
  v.map (fun a => if |a| < tol then 0 else a)

/-- Zero the positions listed in `idxs`, `reduced[basis] = 0.0`. -/
def zeroAt (idxs : List Nat) (v : Vec) : Vec :=
  idxs.foldl (fun acc i => acc.set i 0) v

/-- Scatter `x = np.zeros(n); x[basis] = xB` (with numpy's last-write-wins
semantics for repeated indices). -/
def scatter (n : Nat) (basis : List Nat) (xB : Vec) : Vec :=
  let pairs := (basis.zip xB).reverse
  (List.range n).map (fun j => (pairs.lookup j).getD 0)

/-! ### Standard-form compiler (`lp/utils.py`, `build_standard_form`) -/

/-- One entry of `constraint_specs`: name, terms, lhs constant, comparator,
rhs, source tag. -/
structure ConstraintSpec where
  name : String
  terms : List (String × ℚ)
  constant : ℚ
  cmp : Cmp
  rhs : ℚ
  source : String
deriving DecidableEq, Repr

/-- The `metadata` dict returned by `build_standard_form`. -/
structure Meta where
  original_names : List String
  col_names : List String
  col_types : List String
  components : List (String × List (Nat × ℚ))
  offsets : List (String × ℚ)
  constraint_names : List String
  constraint_sources : List String
  artificial_indices : List Nat
  slack_indices : List Nat
  structural_indices : List Nat
  objective_constant : ℚ
  objective_structural : Vec
deriving DecidableEq, Repr

/-- The tuple returned by `build_standard_form`. -/
structure StdForm where
  A : Mat
  b : Vec
  c : Vec
  meta : Meta
  basis : List Nat
  sense : Sense
deriving DecidableEq, Repr

/-- Set a key in an association list, replacing an existing binding
(Python dict assignment). -/
def assocSet {β : Type} (l : List (String × β)) (k : String) (v : β) :
    List (String × β) :=
  if l.any (fun p => p.1 == k) then
    l.map (fun p => if p.1 == k then (k, v) else p)
  else l ++ [(k, v)]

/-- Add `v` to the binding of key `i` (Python `d[i] = d.get(i, 0.0) + v`). -/
def entAdd (l : List (Nat × ℚ)) (i : Nat) (v : ℚ) : List (Nat × ℚ) :=
  if l.any (fun p => p.1 == i) then
    l.map (fun p => if p.1 == i then (i, p.2 + v) else p)
  else l ++ [(i, v)]

/-- State accumulated by the variable-substitution pass of
`build_standard_form` (columns are `(name, type)` pairs; appending one is
the source's `add_column`, whose zero-extension of the earlier rows and of
the raw objective vector is realised by densifying at the end). -/
structure VarState where
  cols : List (String × String) := []
  components : List (String × List (Nat × ℚ)) := []
  offsets : List (String × ℚ) := []
  structural_indices : List Nat := []
  extra_constraints : List ConstraintSpec := []
deriving DecidableEq, Repr

/-- Variable-substitution pass (`build_standard_form`, first `for` loop).
Raises (`.error`) on inconsistent bounds.  `float("-inf")`/`float("inf")`
bounds are already `none` in the embedding (see `Variable`). -/
def buildVars : List Variable → VarState → Except String VarState
  | [], s => .ok s
  | var :: rest, s =>
      let lb := var.lb
      let ub := var.ub
      if (match lb, ub with
          | some l, some u => decide (l > u)
          | _, _ => false) then
        .error s!"Variable {var.name} has inconsistent bounds (lb > ub)."
      else
        let s1 :=
          match lb with
          | none =>
              let idxPos := s.cols.length
              let idxNeg := s.cols.length + 1
              { s with
                cols := s.cols ++ [(var.name ++ "__pos", "structural"),
                                   (var.name ++ "__neg", "structural")]
                components := assocSet s.components var.name
                  [(idxPos, 1), (idxNeg, -1)]
                offsets := assocSet s.offsets var.name 0
                structural_indices := s.structural_indices ++ [idxPos, idxNeg] }
          | some l =>
              let idx := s.cols.length
              { s with
                cols := s.cols ++ [(var.name, "structural")]
                components := assocSet s.components var.name [(idx, 1)]
                offsets := assocSet s.offsets var.name l
                structural_indices := s.structural_indices ++ [idx] }
        let s2 :=
          match ub with
          | none => s1
          | some u =>
              { s1 with extra_constraints := s1.extra_constraints ++
                  [{ name := "bound_" ++ var.name ++ "_ub"
                     terms := [(var.name, 1)]
                     constant := 0
                     cmp := .le
                     rhs := u
                     source := "bound" }] }
        buildVars rest s2

/-- Apply one objective term's components to the raw objective vector:
`objective_coeffs_raw[idx] += term.coef * coef`. -/
def applyComps (v : Vec) (cs : List (Nat × ℚ)) (α : ℚ) : Vec :=
  cs.foldl (fun acc p => acc.set p.1 (acc.getD p.1 0 + α * p.2)) v

/-- Objective pass (`build_standard_form`, "Build objective coefficients"):
accumulates the objective constant and the raw structural coefficients.
Raises on a term whose variable is unknown. -/
def buildObjective (comps : List (String × List (Nat × ℚ)))
    (offs : List (String × ℚ)) :
    List LinearTerm → ℚ → Vec → Except String (ℚ × Vec)
  | [], k, v => .ok (k, v)
  | t :: rest, k, v =>
      match comps.lookup t.var with
      | none => .error s!"Objective references unknown variable {t.var}."
      | some cs =>
          buildObjective comps offs rest
            (k + t.coef * ((offs.lookup t.var).getD 0))
            (applyComps v cs t.coef)

/-- State of the constraint pass: column list continues growing, each
processed row is kept as its sparse entries plus dense right-hand side. -/
structure RowState where
  cols : List (String × String)
  rowsEnt : List (List (Nat × ℚ)) := []
  rhs : Vec := []
  basis : List Nat := []
  row_names : List String := []
  row_sources : List String := []
  artificial_indices : List Nat := []
  slack_indices : List Nat := []
deriving DecidableEq, Repr

/-- Expand one constraint's terms into sparse column entries and the
accumulated shift (`build_standard_form`, "Build matrix rows", inner
loop).  Raises on an unknown variable. -/
def expandTerms (cname : String) (comps : List (String × List (Nat × ℚ)))
    (offs : List (String × ℚ)) :
    List (String × ℚ) → List (Nat × ℚ) → ℚ →
      Except String (List (Nat × ℚ) × ℚ)
  | [], ent, shift => .ok (ent, shift)
  | (vn, coef) :: rest, ent, shift =>
      match comps.lookup vn with
      | none =>
          .error s!"Constraint {cname} references unknown variable {vn}."
      | some cs =>
          let shift1 := shift + coef * ((offs.lookup vn).getD 0)
          let ent1 := cs.foldl (fun acc p => entAdd acc p.1 (coef * p.2)) ent
          expandTerms cname comps offs rest ent1 shift1

/-- Constraint pass (`build_standard_form`, "Build matrix rows"), one spec:
row-flip for a negative right-hand side, tiny-rhs snap to zero, then
slack/surplus/artificial introduction. -/
def buildRow (comps : List (String × List (Nat × ℚ)))
    (offs : List (String × ℚ)) (s : RowState) (spec : ConstraintSpec) :
    Except String RowState :=
  match expandTerms spec.name comps offs spec.terms [] spec.constant with
  | .error e => .error e
  | .ok (ent0, shift) =>
  let rhs0 := spec.rhs - shift
  let (ent1, rhs1, cmp1) :=
    if rhs0 < 0 then
      (ent0.map (fun p => (p.1, -p.2)), -rhs0,
        match spec.cmp with
        | .le => Cmp.ge
        | .ge => Cmp.le
        | .eq => Cmp.eq)
    else (ent0, rhs0, spec.cmp)
  if rhs1 < 0 ∧ |rhs1| > tiny_eps then
    .error s!"Constraint {spec.name} yields negative right-hand side after standardisation."
  else
    let rhs2 := if |rhs1| ≤ tiny_eps then 0 else rhs1
    let s1 :=
      match cmp1 with
      | .le =>
          let idxSlack := s.cols.length
          { s with
            cols := s.cols ++ [("slack_" ++ spec.name, "slack")]
            rowsEnt := s.rowsEnt ++ [entAdd ent1 idxSlack 1]
            basis := s.basis ++ [idxSlack]
            slack_indices := s.slack_indices ++ [idxSlack] }
      | .ge =>
          let idxSurplus := s.cols.length
          let idxArt := s.cols.length + 1
          { s with
            cols := s.cols ++ [("surplus_" ++ spec.name, "surplus"),
                               ("artificial_" ++ spec.name, "artificial")]
            rowsEnt := s.rowsEnt ++ [entAdd (entAdd ent1 idxSurplus (-1)) idxArt 1]
            basis := s.basis ++ [idxArt]
            artificial_indices := s.artificial_indices ++ [idxArt] }
      | .eq =>
          let idxArt := s.cols.length
          { s with
            cols := s.cols ++ [("artificial_" ++ spec.name, "artificial")]
            rowsEnt := s.rowsEnt ++ [entAdd ent1 idxArt 1]
            basis := s.basis ++ [idxArt]
            artificial_indices := s.artificial_indices ++ [idxArt] }
    .ok { s1 with
          rhs := s.rhs ++ [rhs2]
          row_names := s.row_names ++ [spec.name]
          row_sources := s.row_sources ++ [spec.source] }

/-- Fold `buildRow` over all constraint specs. -/
def buildRows (comps : List (String × List (Nat × ℚ)))
    (offs : List (String × ℚ)) :
    List ConstraintSpec → RowState → Except String RowState
  | [], s => .ok s
  | spec :: rest, s =>
      match buildRow comps offs s spec with
      | .error e => .error e
      | .ok s1 => buildRows comps offs rest s1

/-- Pad a vector with zeros to length `n` (the effect of `add_column`'s
zero-extension on `objective_coeffs_raw`). -/
def padTo (n : Nat) (v : Vec) : Vec := v ++ List.replicate (n - v.length) 0

/-- Negate every entry of a vector. -/
def negVec (v : Vec) : Vec := v.map (fun a => -a)

/-- `build_standard_form` (`lp/utils.py`): convert an `LPModel` to
`A x = b, x ≥ 0` with slack/surplus/artificial columns, initial basis and
metadata.  `.error` is the source's `ValueError`. -/
def build_standard_form (model : LPModel) : Except String StdForm :=
  match buildVars model.vars {} with
  | .error e => .error e
  | .ok s1 =>
  match buildObjective s1.components s1.offsets model.objective.terms
      model.objective.constant (List.replicate s1.cols.length 0) with
  | .error e => .error e
  | .ok (objConst, objRaw) =>
  let specs : List ConstraintSpec := model.constraints.map (fun cons =>
      { name := cons.name
        terms := cons.lhs.terms.map (fun t => (t.var, t.coef))
        constant := cons.lhs.constant
        cmp := cons.cmp
        rhs := cons.rhs
        source := "model" })
    ++ s1.extra_constraints
  match buildRows s1.components s1.offsets specs { cols := s1.cols } with
  | .error e => .error e
  | .ok s3 =>
  let N := s3.cols.length
  let A : Mat :=
    { rows := s3.rowsEnt.map (fun ent =>
        (List.range N).map (fun j => (ent.lookup j).getD 0))
      ncols := N }
  let cRaw := padTo N objRaw
  let c := match model.sense with
    | .max => cRaw
    | .min => negVec cRaw
  .ok
    { A := A
      b := s3.rhs
      c := c
      meta :=
        { original_names := model.vars.map (fun v => v.name)
          col_names := s3.cols.map (fun p => p.1)
          col_types := s3.cols.map (fun p => p.2)
          components := s1.components
          offsets := s1.offsets
          constraint_names := s3.row_names
          constraint_sources := s3.row_sources
          artificial_indices := s3.artificial_indices
          slack_indices := s3.slack_indices
          structural_indices := s1.structural_indices
          objective_constant := objConst
          objective_structural := cRaw }
      basis := s3.basis
      sense := model.sense }

/-! ### Revised simplex core (`lp/simplex.py`, `_run_simplex`) -/

/-- Result dict of `_run_simplex` (and of `_phase_II`).  On the unbounded
exits the source stores `np.inf` in `objective`; that field is never read
on those paths downstream, and the embedding stores `0` there.  The extra
field `enterings` is a ghost trace of the entering columns chosen by the
pivots, appended in order; it instruments the loop for the invariant
proofs and influences nothing. -/
structure RunResult where
  status : Status
  basis : List Nat
  iterations : Nat
  x : Vec
  objective : ℚ
  duals : Vec
  reduced_costs : Vec
  enterings : List Nat
deriving DecidableEq, Repr

/-- Entering-column selection of `_run_simplex` over the candidate list of
`(j, reduced[j])` pairs: Bland takes the smallest index, Dantzig the first
index of maximal reduced cost (Python's `max` keeps the first of equal
keys).  The `[]` arm is unreachable — the loop only selects when
candidates exist. -/
def pick_entering (use_bland : Bool) (cands : List (Nat × ℚ)) : Nat :=
  if use_bland then
    match cands with
    | [] => 0
    | p :: rest => rest.foldl (fun acc q => Nat.min acc q.1) p.1
  else
    match cands with
    | [] => 0
    | p :: rest =>
        (rest.foldl (fun acc q => if acc.2 < q.2 then q else acc) p).1

/-- The `while True` loop of `_run_simplex`, with fuel.  Each pass either
returns or increments `iterations`, and a pass with `iterations ≥ max_iter`
returns whenever it would pivot, so fuel `max_iter + 1` (as supplied by
`run_simplex`) never exhausts; the fuel-0 branch mirrors the
iteration-limit exit's shape. -/
def run_simplex_loop (A : Mat) (b c : Vec) (opts : SolveOptions)
    (use_bland : Bool) (max_iter : Nat) (forbidden : List Nat) :
    Nat → List Nat → Nat → List Nat → RunResult
  | 0, basis, iterations, ghost =>
      { status := .iteration_limit, basis := basis, iterations := iterations,
        x := [], objective := 0, duals := [], reduced_costs := [],
        enterings := ghost }
  | fuel + 1, basis, iterations, ghost =>
      let tol := opts.tol
      let n := A.ncols
      let B := subCols A basis
      let xB0 := clampVec tol (npSolve B b)
      let xB := if xB0.any (fun a => decide (a < -tol)) then
          xB0.map (fun a => max a 0)
        else xB0
      let y := npSolve (transposeOf B basis.length)
          (basis.map (fun j => c.getD j 0))
      let reduced := zeroAt basis (clampVec tol
          ((List.range n).map (fun j => c.getD j 0 - dotL (colOf A j) y)))
      let cands := (List.range n).filterMap
          (fun j => if j ∉ basis ∧ j ∉ forbidden ∧ tol < reduced.getD j 0 then
              some (j, reduced.getD j 0)
            else none)
      if cands.isEmpty then
        { status := .optimal, basis := basis, iterations := iterations,
          x := scatter n basis xB,
          objective := dotL (basis.map (fun j => c.getD j 0)) xB,
          duals := y, reduced_costs := reduced, enterings := ghost }
      else if max_iter ≤ iterations then
        { status := .iteration_limit, basis := basis, iterations := iterations,
          x := scatter n basis xB,
          objective := dotL (basis.map (fun j => c.getD j 0)) xB,
          duals := y, reduced_costs := reduced, enterings := ghost }
      else
        let entering := pick_entering use_bland cands
        let d := clampVec tol (npSolve B (colOf A entering))
        if d.all (fun a => decide (a ≤ tol)) then
          { status := .unbounded, basis := basis, iterations := iterations,
            x := List.replicate n 0, objective := 0,
            duals := y, reduced_costs := reduced, enterings := ghost }
        else
          let ratios : List (ℚ × Nat) := d.enum.filterMap (fun p =>
            if tol < p.2 then some (xB.getD p.1 0 / p.2, p.1) else none)
          match ratios with
          | [] =>
              { status := .unbounded, basis := basis, iterations := iterations,
                x := List.replicate n 0, objective := 0,
                duals := y, reduced_costs := reduced, enterings := ghost }
          | r0 :: rrest =>
              let chosen :=
                if use_bland then
                  rrest.foldl (fun acc r =>
                    if r.1 < acc.1 ∨
                        (r.1 = acc.1 ∧ basis.getD r.2 0 < basis.getD acc.2 0)
                      then r else acc) r0
                else
                  rrest.foldl (fun acc r => if r.1 < acc.1 then r else acc) r0
              run_simplex_loop A b c opts use_bland max_iter forbidden fuel
                (basis.set chosen.2 entering) (iterations + 1)
                (ghost ++ [entering])

/-- `_run_simplex` (`lp/simplex.py`): the degenerate `m = 0` case, then the
pivoting loop with fuel `max_iter + 1`. -/
def run_simplex (A : Mat) (b c : Vec) (basis : List Nat)
    (opts : SolveOptions) (use_bland : Bool) (max_iterations : Option Nat)
    (forbidden : Option (List Nat)) : RunResult :=
  let forb := forbidden.getD []
  let tol := opts.tol
  let m := A.rows.length
  let n := A.ncols
  let max_iter := max (max_iterations.getD opts.max_iters) 1
  if m = 0 then
    let positive := (List.range n).filter
        (fun j => decide (j ∉ forb ∧ tol < c.getD j 0))
    if positive.isEmpty then
      { status := .optimal, basis := basis, iterations := 0,
        x := List.replicate n 0, objective := 0, duals := [],
        reduced_costs := clampVec tol c, enterings := [] }
    else
      { status := .unbounded, basis := basis, iterations := 0,
        x := List.replicate n 0, objective := 0, duals := [],
        reduced_costs := c, enterings := [] }
  else
    run_simplex_loop A b c opts use_bland max_iter forb (max_iter + 1)
      basis 0 []

/-- `_basic_solution` (`lp/simplex.py`). -/
def basic_solution (A : Mat) (b : Vec) (basis : List Nat) (tol : ℚ) : Vec :=
  let n := A.ncols
  if A.rows.length = 0 ∨ basis.length = 0 then List.replicate n 0
  else scatter n basis (clampVec tol (npSolve (subCols A basis) b))

/-! ### Two-phase driver (`lp/simplex.py`, `_phase_I`, `_phase_II`) -/

/-- Status of the Phase I dict: the source's strings
`"feasible" | "infeasible" | "iteration_limit" | "unbounded"`. -/
inductive P1Status where
  | feasible
  | infeasible
  | iteration_limit
  | unbounded
deriving DecidableEq, Repr

/-- The dict `_phase_I` returns. -/
structure P1Res where
  status : P1Status
  basis : List Nat
  x : Vec
  iterations : Nat
deriving DecidableEq, Repr

/-- `_phase_I` (`lp/simplex.py`): skip when there are no artificial columns
or no rows; otherwise run the auxiliary maximisation with cost `-1` on the
artificial columns and test their residual sum against `tol`.
`run_simplex` never returns `.infeasible`, so that match arm is
unreachable. -/
def phase_I (A : Mat) (b c : Vec) (basis : List Nat) (meta : Meta)
    (use_bland : Bool) (opts : SolveOptions) : P1Res :=
  let artificial := meta.artificial_indices
  if artificial.isEmpty ∨ A.rows.length = 0 then
    { status := .feasible, basis := basis,
      x := basic_solution A b basis opts.tol, iterations := 0 }
  else
    let c_phase1 : Vec := c.enum.map
        (fun p => if p.1 ∈ artificial then (-1 : ℚ) else 0)
    let result := run_simplex A b c_phase1 basis opts use_bland
        (some opts.max_iters) none
    match result.status with
    | .optimal =>
        let sum_artificial := artificial.foldl
            (fun acc idx => acc + result.x.getD idx 0) 0
        if opts.tol < sum_artificial then
          { status := .infeasible, basis := result.basis, x := result.x,
            iterations := result.iterations }
        else
          { status := .feasible, basis := result.basis, x := result.x,
            iterations := result.iterations }
    | .iteration_limit =>
        { status := .iteration_limit, basis := result.basis, x := result.x,
          iterations := result.iterations }
    | .unbounded =>
        { status := .unbounded, basis := result.basis, x := result.x,
          iterations := result.iterations }
    | .infeasible =>
        { status := .infeasible, basis := result.basis, x := result.x,
          iterations := result.iterations }

/-- `_phase_II` (`lp/simplex.py`): rerun the simplex on the original
(sense-normalised) cost with the artificial columns forbidden.  The
`sense` parameter is unused, exactly as in the source. -/
def phase_II (A : Mat) (b c : Vec) (basis : List Nat) (_sense : Sense)
    (meta : Meta) (use_bland : Bool) (opts : SolveOptions)
    (max_iterations : Nat) : RunResult :=
  run_simplex A b c basis opts use_bland (some max_iterations)
    (some meta.artificial_indices)

/-! ### Solution mapper (`lp/simplex.py`, reconstruction helpers) -/

/-- Snap values with `|v| < 1e-12` to `0`. -/
def snapTiny (v : ℚ) : ℚ := if |v| < tiny_eps then 0 else v

/-- `_reconstruct_original_solution`. -/
def reconstruct_original_solution (meta : Meta) (x_std : Vec) :
    List (String × ℚ) :=
  meta.original_names.map (fun nm =>
    (nm, snapTiny (((meta.offsets.lookup nm).getD 0) +
      ((meta.components.lookup nm).getD []).foldl
        (fun acc p => acc + p.2 * x_std.getD p.1 0) 0)))

/-- `_reconstruct_reduced_costs`. -/
def reconstruct_reduced_costs (meta : Meta) (reduced : Vec) :
    List (String × ℚ) :=
  meta.original_names.map (fun nm =>
    (nm, snapTiny (((meta.components.lookup nm).getD []).foldl
        (fun acc p => acc + p.2 * reduced.getD p.1 0) 0)))

/-- `_map_duals`: `None` when duals were not requested or the dual vector
is empty; otherwise one snapped entry per standard-form row, keyed by
constraint name, with no sense-dependent sign change. -/
def map_duals (meta : Meta) (duals : Vec) (opts : SolveOptions) :
    Option (List (String × ℚ)) :=
  if opts.return_duals = false ∨ duals.isEmpty then none
  else some (meta.constraint_names.enum.map
    (fun p => (p.2, snapTiny (duals.getD p.1 0))))

/-! ### `simplex_solve` (`lp/simplex.py`) -/

/-- Intermediate record of one `simplex_solve` run: the caught
`ValueError`, a Phase I early stop, or both phases' results.  This is the
source's single function body split at its early `return`s so that claims
can name the phase outcomes; `simplex_solve` below renders it to the
`LPSolution` the source returns. -/
inductive Trace where
  | build_fail (msg : String)
  | p1_stop (r1 : P1Res)
  | phases (sf : StdForm) (r1 : P1Res) (r2 : RunResult)
deriving DecidableEq, Repr

/-- Run standardisation, Phase I and (when feasible) Phase II, recording
the outcome.  `remaining_iters = max(opts.max_iters - iterations, 1)` as
in the source. -/
def solveTrace (model : LPModel) (opts : SolveOptions) : Trace :=
  match build_standard_form model with
  | .error msg => .build_fail msg
  | .ok sf =>
      let use_bland := decide (opts.pivot_rule = .bland)
      let r1 := phase_I sf.A sf.b sf.c sf.basis sf.meta use_bland opts
      match r1.status with
      | .feasible =>
          let remaining := max (opts.max_iters - r1.iterations) 1
          .phases sf r1 (phase_II sf.A sf.b sf.c r1.basis sf.sense sf.meta
            use_bland opts remaining)
      | _ => .p1_stop r1

/-- `simplex_solve` (`lp/simplex.py`): render the trace into the
`LPSolution` of the source.  In the `.phases` arm the source checks
`iteration_limit` and `unbounded` and then builds the optimal solution
from whatever remains, hence the catch-all; the `.feasible` arm under
`.p1_stop` is unreachable by construction of `solveTrace` and is rendered
as the source's infeasible exit. -/
def simplex_solve (model : LPModel) (opts : SolveOptions) : LPSolution :=
  match solveTrace model opts with
  | .build_fail msg =>
      { status := .infeasible, objective_value := none, x := none,
        reduced_costs := none, duals := none, iterations := 0,
        message := msg }
  | .p1_stop r1 =>
      match r1.status with
      | .iteration_limit =>
          { status := .iteration_limit, objective_value := none, x := none,
            reduced_costs := none, duals := none,
            iterations := r1.iterations,
            message := "Hit iteration limit in Phase I." }
      | .unbounded =>
          { status := .unbounded, objective_value := none, x := none,
            reduced_costs := none, duals := none,
            iterations := r1.iterations,
            message := "Phase I detected unbounded auxiliary problem (likely modelling error)." }
      | _ =>
          { status := .infeasible, objective_value := none, x := none,
            reduced_costs := none, duals := none,
            iterations := r1.iterations, message := "Infeasible." }
  | .phases sf r1 r2 =>
      let iterations := r1.iterations + r2.iterations
      match r2.status with
      | .iteration_limit =>
          { status := .iteration_limit, objective_value := none, x := none,
            reduced_costs := none, duals := none, iterations := iterations,
            message := "Hit iteration limit in Phase II." }
      | .unbounded =>
          { status := .unbounded, objective_value := none, x := none,
            reduced_costs := none, duals := none, iterations := iterations,
            message := "Unbounded." }
      | _ =>
          let x_original := reconstruct_original_solution sf.meta r2.x
          let reduced_costs := reconstruct_reduced_costs sf.meta
              r2.reduced_costs
          let duals := map_duals sf.meta r2.duals opts
          let objective_value := match sf.sense with
            | .max => sf.meta.objective_constant + r2.objective
            | .min => sf.meta.objective_constant - r2.objective
          { status := .optimal, objective_value := some objective_value,
            x := some x_original, reduced_costs := some reduced_costs,
            duals := duals, iterations := iterations, message := "" }

/-! ### Accessors over `Trace` used by the claims -/

/-- The empty metadata record (used as a default by accessors). -/
def emptyMeta : Meta :=
  { original_names := [], col_names := [], col_types := [], components := [],
    offsets := [], constraint_names := [], constraint_sources := [],
    artificial_indices := [], slack_indices := [], structural_indices := [],
    objective_constant := 0, objective_structural := [] }

/-- Phase I status when `simplex_solve` stopped after Phase I. -/
def p1_stop_status : Trace → Option P1Status
  | .p1_stop r1 => some r1.status
  | _ => none

/-- Phase II result when both phases ran. -/
def traceRun2 : Trace → Option RunResult
  | .phases _ _ r2 => some r2
  | _ => none

/-- The dual estimate vector `y` of Phase II (empty unless both phases
ran). -/
def dualVecOf (t : Trace) : Vec :=
  match t with
  | .phases _ _ r2 => r2.duals
  | _ => []

/-- Metadata of the standard form (empty unless standardisation
succeeded). -/
def metaOf (t : Trace) : Meta :=
  match t with
  | .phases sf _ _ => sf.meta
  | _ => emptyMeta

/-! ### Branch and bound (`mip/branch_and_cut.py`)

The `use_or_tools` branch of `solve_mip_branch_and_cut` delegates to an
optional third-party solver; the spec places that fallback outside the
core, and the embedding covers the internal path (`use_or_tools=False`,
the default). -/

/-- The `bound_type` string argument of `_tighten_bound`
(`"ub" | "lb"`). -/
inductive BoundType where
  | ub
  | lb
deriving DecidableEq, Repr

/-- The local `eps = 1e-9` of `_tighten_bound`. -/
def bnb_eps : ℚ := 1 / 1000000000

/-- Replace the first variable with the given name (Python mutates the
first match found by its `for` loop). -/
def setFirstVar : List Variable → String → Variable → List Variable
  | [], _, _ => []
  | v :: rest, nm, nv =>
      if v.name == nm then nv :: rest else v :: setFirstVar rest nm nv

/-- `_tighten_bound` (`mip/branch_and_cut.py`): deep-copy the model and
tighten one bound of one variable; `none` when the variable is missing,
when the proposed bound does not strictly tighten the existing one
(redundant child), or when the result has `lb > ub + eps`. -/
def tighten_bound (model : LPModel) (var_name : String)
    (bound_type : BoundType) (bound_value : ℚ) : Option LPModel :=
  match model.vars.find? (fun v => v.name == var_name) with
  | none => none
  | some target =>
      let eps : ℚ := bnb_eps
      let target1 : Option Variable :=
        match bound_type with
        | .ub =>
            match target.ub with
            | some u =>
                if u ≤ bound_value + eps then none
                else some { target with ub := some (min u bound_value) }
            | none => some { target with ub := some bound_value }
        | .lb =>
            match target.lb with
            | some l =>
                if bound_value - eps ≤ l then none
                else some { target with lb := some (max l bound_value) }
            | none => some { target with lb := some bound_value }
      match target1 with
      | none => none
      | some t1 =>
          if (match t1.lb, t1.ub with
              | some l, some u => decide (u + eps < l)
              | _, _ => false) then none
          else some { model with vars := setFirstVar model.vars var_name t1 }

/-- `_select_fractional_variable` (`mip/branch_and_cut.py`): among the
integer-flagged variables, pick the one with the largest fractional part
exceeding `tol` (with the source's `best_gap + tol * 0.1` improvement
test), returning its name and LP value.  Python's `round` rounds half to
even while Lean's `round` rounds half up; `|value - round(value)|` is the
distance to the nearest integer under either tie rule, so the gap is
identical. -/
def select_fractional_variable (model : LPModel)
    (values : List (String × ℚ)) (tol : ℚ) : Option (String × ℚ) :=
  let st := model.vars.foldl
    (fun (acc : Option String × ℚ × ℚ) var =>
      if var.is_integer = false then acc
      else
        match values.lookup var.name with
        | none => acc
        | some value =>
            let gap : ℚ := |value - ((round value : ℤ) : ℚ)|
            if tol < gap ∧ acc.2.1 + tol * (1 / 10) < gap then
              (some var.name, gap, value)
            else acc)
    (none, 0, 0)
  match st with
  | (none, _, _) => none
  | (some nm, _, v) => some (nm, v)

/-- State of the branch-and-bound `while` loop.  `pushed` is a ghost log
of every subproblem pushed onto the stack by the branching step (the
initial stack entry is not logged); it instruments the loop for the
invariant proofs and influences nothing. -/
structure BnbState where
  stack : List (LPModel × Nat)
  best : Option LPSolution := none
  best_value : Option ℚ := none
  total_iterations : Nat := 0
  nodes : Nat := 0
  pushed : List LPModel := []
deriving DecidableEq, Repr

/-- Outcome of the loop: the early `return` on an unbounded relaxation
(the source returns only the solution; the state is kept as ghost data),
or normal exit with the final state. -/
inductive BnbOut where
  | early (sol : LPSolution) (st : BnbState)
  | finished (st : BnbState)
deriving DecidableEq, Repr

/-- The `while stack and nodes_explored < max_nodes` loop of
`solve_mip_branch_and_cut`, with fuel.  Every pass increments `nodes`, so
fuel `max_nodes` (as supplied by `mip_trace`) never exhausts before the
guard fails; the fuel-0 branch returns the current state exactly as a
failed guard does.  The Python stack is a list with `append`/`pop` at the
end; here the head of `stack` is the top, so pushing right then left
leaves the left child on top, preserving the source's pop order. -/
def bnb_loop (opts branch_opts : SolveOptions) (sense_factor : ℚ)
    (max_nodes : Nat) : Nat → BnbState → BnbOut
  | 0, st => .finished st
  | fuel + 1, st =>
      match st.stack with
      | [] => .finished st
      | (current_model, depth) :: rest =>
          if max_nodes ≤ st.nodes then .finished st
          else
            let lp := simplex_solve current_model branch_opts
            let st1 := { st with
              stack := rest
              total_iterations := st.total_iterations + lp.iterations
              nodes := st.nodes + 1 }
            if lp.status = .infeasible then
              bnb_loop opts branch_opts sense_factor max_nodes fuel st1
            else if lp.status = .unbounded then
              .early
                { status := .unbounded, objective_value := none, x := none,
                  reduced_costs := none, duals := none,
                  iterations := st1.total_iterations,
                  message := "LP relaxation unbounded; MILP appears unbounded." }
                st1
            else if lp.status ≠ .optimal ∨ lp.objective_value = none then
              bnb_loop opts branch_opts sense_factor max_nodes fuel st1
            else
              let current_value := lp.objective_value.getD 0
              if (match st.best_value with
                  | some bv => decide
                      (sense_factor * current_value ≤
                        sense_factor * bv + opts.tol)
                  | none => false) then
                bnb_loop opts branch_opts sense_factor max_nodes fuel st1
              else
                match select_fractional_variable current_model
                    (lp.x.getD []) opts.tol with
                | none =>
                    bnb_loop opts branch_opts sense_factor max_nodes fuel
                      { st1 with best := some lp,
                                 best_value := some current_value }
                | some (var_name, value) =>
                    let floor_val : ℚ := ((⌊value⌋ : ℤ) : ℚ)
                    let ceil_val : ℚ := ((⌈value⌉ : ℤ) : ℚ)
                    let left_model := tighten_bound current_model var_name
                        .ub floor_val
                    let right_model := tighten_bound current_model var_name
                        .lb ceil_val
                    let stackR := match right_model with
                      | some r => (r, depth + 1) :: st1.stack
                      | none => st1.stack
                    let stackL := match left_model with
                      | some l => (l, depth + 1) :: stackR
                      | none => stackR
                    let pushed1 := st1.pushed ++
                      (match right_model with | some r => [r] | none => []) ++
                      (match left_model with | some l => [l] | none => [])
                    bnb_loop opts branch_opts sense_factor max_nodes fuel
                      { st1 with stack := stackL, pushed := pushed1 }

/-- `max_nodes = min(1024, max(64, |integer vars| * 20))`. -/
def bnb_max_nodes (model : LPModel) : Nat :=
  min 1024 (max 64 ((model.vars.filter (fun v => v.is_integer)).length * 20))

/-- Run the branch-and-bound loop of `solve_mip_branch_and_cut` from the
initial state (the root model on the stack, no incumbent). -/
def mip_trace (model : LPModel) (opts : SolveOptions) : BnbOut :=
  let branch_opts := { opts with return_duals := false }
  let sense_factor : ℚ := if model.sense = .max then 1 else -1
  let max_nodes := bnb_max_nodes model
  bnb_loop opts branch_opts sense_factor max_nodes max_nodes
    { stack := [(model, 0)] }

/-- The code after the loop of `solve_mip_branch_and_cut` (lines 91-116):
no incumbent gives `iteration_limit` when the node budget was reached and
`infeasible` otherwise; an incumbent is returned as `optimal` with its
objective and primal values, reduced costs and duals stripped. -/
def bnb_finalize (max_nodes : Nat) (st : BnbState) : LPSolution :=
  match st.best with
  | none =>
      if max_nodes ≤ st.nodes then
        { status := .iteration_limit, objective_value := none, x := none,
          reduced_costs := none, duals := none,
          iterations := st.total_iterations,
          message := "Reached branch limit before finding feasible integer solution." }
      else
        { status := .infeasible, objective_value := none, x := none,
          reduced_costs := none, duals := none,
          iterations := st.total_iterations,
          message := "No feasible integer assignment found." }
  | some best =>
      { status := .optimal, objective_value := best.objective_value,
        x := best.x, reduced_costs := none, duals := none,
        iterations := st.total_iterations,
        message := s!"Explored nodes: {st.nodes}" }

/-- `solve_mip_branch_and_cut` (`mip/branch_and_cut.py`), internal path:
delegate to `simplex_solve` when no variable is integer-flagged, else run
the branch-and-bound loop and finalize. -/
def solve_mip_branch_and_cut (model : LPModel) (opts : SolveOptions) :
    LPSolution :=
  if (model.vars.any (fun v => v.is_integer)) = false then
    simplex_solve model opts
  else
    match mip_trace model opts with
    | .early sol _ => sol
    | .finished st => bnb_finalize (bnb_max_nodes model) st

/-- Ghost state of the finished or early-returned loop. -/
def outState : BnbOut → BnbState
  | .early _ st => st
  | .finished st => st

/-- Final state on normal loop exit, `none` on the early unbounded
return. -/
def finishedState : BnbOut → Option BnbState
  | .finished st => some st
  | .early _ _ => none

/-- Final state of the branch-and-bound loop on normal exit (default: an
empty state; only used under the hypothesis that the loop exited
normally). -/
def mipFinal (model : LPModel) (opts : SolveOptions) : BnbState :=
  (finishedState (mip_trace model opts)).getD { stack := [] }

/-- Metadata of the model's standard form (empty on standardisation
failure). -/
def stdMetaOf (model : LPModel) : Meta :=
  match build_standard_form model with
  | .ok sf => sf.meta
  | .error _ => emptyMeta

/-- Row count of the model's standard form (0 on failure). -/
def stdRowCount (model : LPModel) : Nat :=
  match build_standard_form model with
  | .ok sf => sf.A.rows.length
  | .error _ => 0

/-- Whether standardisation succeeds on the model. -/
def buildOk (model : LPModel) : Bool :=
  (build_standard_form model).toOption.isSome

/-- The model of claim C7: negate the objective expression (all term
coefficients and the constant) and flip the optimization sense.  This is
the transformation named by the spec's sense-symmetry property, not a
function of the source. -/
def negFlipModel (m : LPModel) : LPModel :=
  { m with
    sense := match m.sense with | .min => .max | .max => .min
    objective :=
      { terms := m.objective.terms.map (fun t => { t with coef := -t.coef })
        constant := -m.objective.constant } }

/-! ### Concrete instances used by the claims -/

/-- Small options: default tolerance and rules, 20 pivots. -/
def opts20 : SolveOptions := { max_iters := 20 }

/-- Options with a budget of a single pivot. -/
def opts1 : SolveOptions := { max_iters := 1 }

/-- Seed scenario 1: min `3x + 2y` s.t. `x + 2y ≥ 8`, `3x + y ≥ 6`,
`x, y ≥ 0`. -/
def scen1_model : LPModel :=
  { sense := .min
    objective := { terms := [⟨"x", 3⟩, ⟨"y", 2⟩] }
    vars := [{ name := "x", lb := some 0 }, { name := "y", lb := some 0 }]
    constraints :=
      [ { name := "c1", lhs := { terms := [⟨"x", 1⟩, ⟨"y", 2⟩] },
          cmp := .ge, rhs := 8 },
        { name := "c2", lhs := { terms := [⟨"x", 3⟩, ⟨"y", 1⟩] },
          cmp := .ge, rhs := 6 } ] }

/-- Seed scenario 3: min `x + y` s.t. `x + y = 4`, `x − y = 0`,
`x, y ≥ 0` (the model of `tests/test_lp_duals.py`). -/
def scen3_model : LPModel :=
  { sense := .min
    objective := { terms := [⟨"x", 1⟩, ⟨"y", 1⟩] }
    vars := [{ name := "x", lb := some 0 }, { name := "y", lb := some 0 }]
    constraints :=
      [ { name := "balance", lhs := { terms := [⟨"x", 1⟩, ⟨"y", 1⟩] },
          cmp := .eq, rhs := 4 },
        { name := "symmetry", lhs := { terms := [⟨"x", 1⟩, ⟨"y", -1⟩] },
          cmp := .eq, rhs := 0 } ] }

/-- A model whose Phase I auxiliary problem hits the unbounded exit: both
`≥` rows carry the coefficient `1e-9 = tol` on `x`, so the entering
column's reduced cost `2e-9` clears the tolerance while every direction
entry equals `tol` and fails the ratio test. -/
def tiny_model : LPModel :=
  { sense := .min
    objective := { terms := [⟨"x", 1⟩] }
    vars := [{ name := "x", lb := some 0 }]
    constraints :=
      [ { name := "c1", lhs := { terms := [⟨"x", default_tol⟩] },
          cmp := .ge, rhs := 1 },
        { name := "c2", lhs := { terms := [⟨"x", default_tol⟩] },
          cmp := .ge, rhs := 1 } ] }

/-- Max `x` s.t. `x ≥ 1`, `x ≤ 2`, `x ≥ 0`: Phase I needs one pivot and
Phase II one more, so with `max_iters = 1` the solve spends 2 pivots. -/
def budget_model : LPModel :=
  { sense := .max
    objective := { terms := [⟨"x", 1⟩] }
    vars := [{ name := "x", lb := some 0 }]
    constraints :=
      [ { name := "c1", lhs := { terms := [⟨"x", 1⟩] }, cmp := .ge, rhs := 1 },
        { name := "c2", lhs := { terms := [⟨"x", 1⟩] }, cmp := .le, rhs := 2 } ] }

/-- Min `x` s.t. `x ≥ −5` with the lower bound of `x` left unspecified. -/
def free_model : LPModel :=
  { sense := .min
    objective := { terms := [⟨"x", 1⟩] }
    vars := [{ name := "x" }]
    constraints :=
      [ { name := "cge", lhs := { terms := [⟨"x", 1⟩] }, cmp := .ge,
          rhs := -5 } ] }

/-- The same model with the lower bound of `x` set to 0. -/
def zero_model : LPModel :=
  { sense := .min
    objective := { terms := [⟨"x", 1⟩] }
    vars := [{ name := "x", lb := some 0 }]
    constraints :=
      [ { name := "cge", lhs := { terms := [⟨"x", 1⟩] }, cmp := .ge,
          rhs := -5 } ] }

/-- Max `x` s.t. `x ≤ 1`, `x ≥ 0`, `x` integer: a MILP solved to
optimality by a single branch-and-bound node. -/
def milp_model : LPModel :=
  { sense := .max
    objective := { terms := [⟨"x", 1⟩] }
    vars := [{ name := "x", lb := some 0, is_integer := true }]
    constraints :=
      [ { name := "cap", lhs := { terms := [⟨"x", 1⟩] }, cmp := .le,
          rhs := 1 } ] }

/-- Bound consistency up to the branch-and-bound epsilon: every variable
with both bounds present has `lb ≤ ub + 1e-9`. -/
def goodEps (m : LPModel) : Prop :=
  ∀ w ∈ m.vars, ∀ lo u, w.lb = some lo → w.ub = some u → lo ≤ u + bnb_eps

/-- Matrix of the C6 witness instance (columns `x`, slack). -/
def c6_A : Mat := { rows := [[1, 1]], ncols := 2 }

/-- Right-hand side of the C6 witness instance. -/
def c6_b : Vec := [1]

/-- Cost vector of the C6 witness instance. -/
def c6_c : Vec := [1, 0]

/-- Initial basis of the C6 witness instance. -/
def c6_basis : List Nat := [1]

/-- Metadata of the C6 witness instance: column 0 marked artificial. -/
def c6_meta : Meta := { emptyMeta with artificial_indices := [0] }

/-- The single variable of `frac_milp_model`. -/
def frac_var : Variable :=
  { name := "x", lb := some 0, ub := some (5 / 2), is_integer := true }

/-- Max `x` s.t. `0 ≤ x ≤ 5/2`, `x` integer: the root relaxation is
fractional, so the loop branches and pushes one child. -/
def frac_milp_model : LPModel :=
  { sense := .max
    objective := { terms := [⟨"x", 1⟩] }
    vars := [{ name := "x", lb := some 0, ub := some (5 / 2),
               is_integer := true }]
    constraints := [] }

/-! ## Claims -/

set_option maxRecDepth 1000000 in
/-- C9: solving min `3x + 2y` s.t. `x + 2y ≥ 8`, `3x + y ≥ 6`, `x, y ≥ 0`
returns status optimal with objective `48/5 = 9.6`, `x = 4/5 = 0.8` and
`y = 18/5 = 3.6` — exactly, hence within τ. -/
theorem c9_theorem :
    (simplex_solve scen1_model opts20).status = .optimal ∧
    (simplex_solve scen1_model opts20).objective_value = some (48 / 5) ∧
    ((simplex_solve scen1_model opts20).x.getD []).lookup "x" = some (4 / 5) ∧
    ((simplex_solve scen1_model opts20).x.getD []).lookup "y" = some (18 / 5) := by
  with_unfolding_all decide

set_option maxRecDepth 1000000 in
/-- C1 counterexample: on seed scenario 3 — a min-sense problem solved to
optimality with return_duals enabled — the Phase II dual estimate is
`y = [-1, 0]` and the solution reports the dual of `balance` as `-1`,
which equals `y[0]` and is not the negation `-y[0] = 1` the claim
asserts. -/
theorem c1_counterexample :
    (simplex_solve scen3_model opts20).status = .optimal ∧
    opts20.return_duals = true ∧
    dualVecOf (solveTrace scen3_model opts20) = [-1, 0] ∧
    (simplex_solve scen3_model opts20).duals =
      some [("balance", -1), ("symmetry", 0)] ∧
    ((simplex_solve scen3_model opts20).duals.getD []).lookup "balance" ≠
      some (-((dualVecOf (solveTrace scen3_model opts20)).getD 0 0)) := by
  with_unfolding_all decide

set_option maxRecDepth 1000000 in
/-- C2 counterexample: on `tiny_model` the Phase I auxiliary simplex
terminates with status unbounded, yet `simplex_solve` returns status
unbounded — not the infeasible status the claim asserts. -/
theorem c2_counterexample :
    p1_stop_status (solveTrace tiny_model opts20) = some .unbounded ∧
    (simplex_solve tiny_model opts20).status = .unbounded ∧
    (simplex_solve tiny_model opts20).status ≠ .infeasible := by
  with_unfolding_all decide

set_option maxRecDepth 1000000 in
/-- C3 counterexample: on min `x` s.t. `x ≥ -5` with the lower bound of
`x` unspecified the solver returns the optimum `x = -5`, while the same
model with lower bound 0 returns `x = 0`: the solves are not equivalent
and the value `-5` is far below `-τ`. -/
theorem c3_counterexample :
    (simplex_solve free_model opts20).status = .optimal ∧
    ((simplex_solve free_model opts20).x.getD []).lookup "x" = some (-5) ∧
    (simplex_solve zero_model opts20).status = .optimal ∧
    ((simplex_solve zero_model opts20).x.getD []).lookup "x" = some 0 ∧
    ¬ (-5 : ℚ) ≥ -opts20.tol := by
  with_unfolding_all decide

set_option maxRecDepth 1000000 in
/-- C4 counterexample: a MILP with an integer variable solved to
optimality through the branch-and-bound loop returns null reduced costs
and null duals even though `return_duals` is true. -/
theorem c4_counterexample :
    opts20.return_duals = true ∧
    (solve_mip_branch_and_cut milp_model opts20).status = .optimal ∧
    (solve_mip_branch_and_cut milp_model opts20).reduced_costs = none ∧
    (solve_mip_branch_and_cut milp_model opts20).duals = none := by
  with_unfolding_all decide

set_option maxRecDepth 1000000 in
/-- C5 counterexample: on `budget_model` with `max_iters = 1` the solve
returns optimal with `iterations = 2`, exceeding `max_iters`: Phase I
spends the whole budget and Phase II still receives one pivot. -/
theorem c5_counterexample :
    (simplex_solve budget_model opts1).status = .optimal ∧
    (simplex_solve budget_model opts1).iterations = 2 ∧
    ¬ (simplex_solve budget_model opts1).iterations ≤ opts1.max_iters := by
  with_unfolding_all decide

/-- C2 (amended): whenever Phase I stops the solve with an unbounded
outcome, `simplex_solve` returns status unbounded with the modelling-error
message. -/
theorem c2_amended_theorem (model : LPModel) (opts : SolveOptions)
    (h : p1_stop_status (solveTrace model opts) = some .unbounded) :
    (simplex_solve model opts).status = .unbounded ∧
    (simplex_solve model opts).message =
      "Phase I detected unbounded auxiliary problem (likely modelling error)." := by
  unfold simplex_solve
  cases htr : solveTrace model opts with
  | build_fail msg => rw [htr] at h; simp [p1_stop_status] at h
  | phases sf r1 r2 => rw [htr] at h; simp [p1_stop_status] at h
  | p1_stop r1 =>
      rw [htr] at h
      simp only [p1_stop_status, Option.some.injEq] at h
      simp [h]

set_option maxRecDepth 1000000 in
/-- C2 witness: the amended statement at `tiny_model`. -/
theorem c2_witness :
    (simplex_solve tiny_model opts20).status = .unbounded ∧
    (simplex_solve tiny_model opts20).message =
      "Phase I detected unbounded auxiliary problem (likely modelling error)." :=
  c2_amended_theorem tiny_model opts20 (by with_unfolding_all decide)

/-- C1 (amended): whenever the solve reaches optimality with
`return_duals` enabled and a nonempty Phase II dual vector, the reported
duals map is exactly one entry per standard-form row, keyed by constraint
name, whose value is the snapped dual estimate `y[row]` itself — with no
sense-dependent negation, for min-sense problems included. -/
theorem c1_amended_theorem (model : LPModel) (opts : SolveOptions)
    (hopt : (simplex_solve model opts).status = .optimal)
    (hd : opts.return_duals = true)
    (hne : dualVecOf (solveTrace model opts) ≠ []) :
    (simplex_solve model opts).duals =
      some ((metaOf (solveTrace model opts)).constraint_names.enum.map
        (fun p =>
          (p.2, snapTiny ((dualVecOf (solveTrace model opts)).getD p.1 0)))) := by
  unfold simplex_solve at hopt ⊢
  cases htr : solveTrace model opts with
  | build_fail msg => rw [htr] at hopt; simp at hopt
  | p1_stop r1 =>
      rw [htr] at hopt
      cases hs : r1.status <;> simp [hs] at hopt
  | phases sf r1 r2 =>
      rw [htr] at hopt hne
      cases hs : r2.status with
      | iteration_limit => simp [hs] at hopt
      | unbounded => simp [hs] at hopt
      | optimal =>
          simp only [dualVecOf] at hne
          cases hdl : r2.duals with
          | nil => exact absurd hdl hne
          | cons d0 ds =>
              simp [hs, map_duals, metaOf, dualVecOf, hd, hdl]
      | infeasible =>
          simp only [dualVecOf] at hne
          cases hdl : r2.duals with
          | nil => exact absurd hdl hne
          | cons d0 ds =>
              simp [hs, map_duals, metaOf, dualVecOf, hd, hdl]

set_option maxRecDepth 1000000 in
/-- C1 witness: the amended statement at seed scenario 3. -/
theorem c1_witness :
    (simplex_solve scen3_model opts20).duals =
      some ((metaOf (solveTrace scen3_model opts20)).constraint_names.enum.map
        (fun p =>
          (p.2, snapTiny ((dualVecOf (solveTrace scen3_model opts20)).getD p.1 0)))) :=
  c1_amended_theorem scen3_model opts20 (by with_unfolding_all decide) rfl
    (by with_unfolding_all decide)

/-- Every exit of the pivoting loop keeps the iteration counter within
`max_iter`, provided it starts within it: returns carry the current
counter and a pass only pivots below the budget. -/
theorem run_simplex_loop_iter_le (A : Mat) (b c : Vec) (opts : SolveOptions)
    (ubl : Bool) (max_iter : Nat) (forb : List Nat) :
    ∀ fuel basis iters ghost, iters ≤ max_iter →
      (run_simplex_loop A b c opts ubl max_iter forb fuel basis iters
        ghost).iterations ≤ max_iter := by
  intro fuel
  induction fuel with
  | zero => intro basis iters ghost h; simpa [run_simplex_loop] using h
  | succ n ih =>
      intro basis iters ghost h
      simp only [run_simplex_loop]
      repeat' split
      all_goals first
        | exact ih _ _ _ (by omega)
        | simpa using h

/-- `_run_simplex` returns at most `max(budget, 1)` iterations. -/
theorem run_simplex_iter_le (A : Mat) (b c : Vec) (basis : List Nat)
    (opts : SolveOptions) (ubl : Bool) (mi : Option Nat)
    (forb : Option (List Nat)) :
    (run_simplex A b c basis opts ubl mi forb).iterations ≤
      max (mi.getD opts.max_iters) 1 := by
  simp only [run_simplex]
  split
  · split <;> simp
  · exact run_simplex_loop_iter_le A b c opts ubl _ _ _ basis 0 []
      (Nat.zero_le _)

/-- `_phase_I` returns at most `max(max_iters, 1)` iterations. -/
theorem phase_I_iter_le (A : Mat) (b c : Vec) (basis : List Nat)
    (meta : Meta) (ubl : Bool) (opts : SolveOptions) :
    (phase_I A b c basis meta ubl opts).iterations ≤ max opts.max_iters 1 := by
  simp only [phase_I]
  split
  · simp
  · have hr := run_simplex_iter_le A b
      ((c.enum.map (fun p =>
        if p.1 ∈ meta.artificial_indices then (-1 : ℚ) else 0)))
      basis opts ubl (some opts.max_iters) none
    simp only [Option.getD_some] at hr
    repeat' split
    all_goals simpa using hr

/-- C5 (amended): with `max_iters ≥ 1`, the total pivot count of a solve
is at most `max_iters + 1` — Phase I is capped at `max_iters` and Phase II
receives `max(max_iters − phase1, 1)`, which grants one extra pivot
exactly when Phase I consumed the whole budget. -/
theorem c5_amended_theorem (model : LPModel) (opts : SolveOptions)
    (h : 1 ≤ opts.max_iters) :
    (simplex_solve model opts).iterations ≤ opts.max_iters + 1 := by
  unfold simplex_solve solveTrace
  cases hb : build_standard_form model with
  | error msg => simp
  | ok sf =>
      have h1 := phase_I_iter_le sf.A sf.b sf.c sf.basis sf.meta
        (decide (opts.pivot_rule = .bland)) opts
      have h2 := run_simplex_iter_le sf.A sf.b sf.c
        (phase_I sf.A sf.b sf.c sf.basis sf.meta
          (decide (opts.pivot_rule = .bland)) opts).basis opts
        (decide (opts.pivot_rule = .bland))
        (some (max (opts.max_iters -
          (phase_I sf.A sf.b sf.c sf.basis sf.meta
            (decide (opts.pivot_rule = .bland)) opts).iterations) 1))
        (some sf.meta.artificial_indices)
      simp only [Option.getD_some] at h2
      cases hs : (phase_I sf.A sf.b sf.c sf.basis sf.meta
          (decide (opts.pivot_rule = .bland)) opts).status with
      | feasible =>
          simp only [hs, phase_II]
          cases hs2 : (run_simplex sf.A sf.b sf.c
              (phase_I sf.A sf.b sf.c sf.basis sf.meta
                (decide (opts.pivot_rule = .bland)) opts).basis opts
              (decide (opts.pivot_rule = .bland))
              (some (max (opts.max_iters -
                (phase_I sf.A sf.b sf.c sf.basis sf.meta
                  (decide (opts.pivot_rule = .bland)) opts).iterations) 1))
              (some sf.meta.artificial_indices)).status <;>
            simp only [hs2] at h2 ⊢ <;> simp <;> omega
      | infeasible => simp only [hs]; simp; omega
      | iteration_limit => simp only [hs]; simp; omega
      | unbounded => simp only [hs]; simp; omega

/-- C5 witness: the amended bound at `budget_model` with a budget of one
pivot. -/
theorem c5_witness :
    1 ≤ opts1.max_iters ∧
    (simplex_solve budget_model opts1).iterations ≤ opts1.max_iters + 1 :=
  ⟨by decide, c5_amended_theorem budget_model opts1 (by decide)⟩

/-- A fold whose step always returns one of its two arguments ends at the
initial element or inside the list. -/
theorem foldl_choice {α : Type} (f : α → α → α)
    (hf : ∀ a b, f a b = a ∨ f a b = b) :
    ∀ (l : List α) (a : α), l.foldl f a = a ∨ l.foldl f a ∈ l := by
  intro l
  induction l with
  | nil => intro a; exact Or.inl rfl
  | cons b t ih =>
      intro a
      rw [List.foldl_cons]
      rcases ih (f a b) with h | h
      · rw [h]
        rcases hf a b with h2 | h2 <;> rw [h2]
        · exact Or.inl rfl
        · exact Or.inr (List.mem_cons_self b t)
      · exact Or.inr (List.mem_cons_of_mem b h)

/-- The selected entering column is the index of one of the candidate
pairs. -/
theorem pick_entering_mem_fst (ubl : Bool) (cands : List (Nat × ℚ))
    (hne : cands ≠ []) :
    pick_entering ubl cands ∈ cands.map Prod.fst := by
  match cands with
  | [] => exact absurd rfl hne
  | p :: rest =>
      cases ubl with
      | true =>
          simp only [pick_entering, if_pos]
          rw [show rest.foldl (fun acc q => Nat.min acc q.1) p.1 =
              (rest.map Prod.fst).foldl Nat.min p.1 from
            (List.foldl_map Prod.fst Nat.min rest p.1).symm]
          rcases foldl_choice Nat.min (fun a b => by
              rcases Nat.le_total a b with h | h
              · exact Or.inl (Nat.min_eq_left h)
              · exact Or.inr (Nat.min_eq_right h))
            (rest.map Prod.fst) p.1 with h | h
          · rw [h, List.map_cons]; exact List.mem_cons_self _ _
          · rw [List.map_cons]; exact List.mem_cons_of_mem _ h
      | false =>
          simp only [pick_entering, Bool.false_eq_true, if_neg,
            not_false_eq_true]
          have hch : rest.foldl (fun acc q => if acc.2 < q.2 then q else acc)
                p = p ∨
              rest.foldl (fun acc q => if acc.2 < q.2 then q else acc) p ∈
                rest :=
            foldl_choice _ (fun a b => by
              by_cases h : a.2 < b.2
              · exact Or.inr (if_pos h)
              · exact Or.inl (if_neg h)) rest p
          rcases hch with h | h
          · rw [h, List.map_cons]; exact List.mem_cons_self _ _
          · rw [List.map_cons]
            exact List.mem_cons_of_mem _ (List.mem_map_of_mem Prod.fst h)

/-- A nonempty list is not `[]` when its `isEmpty` test is not `true`. -/
theorem ne_nil_of_not_isEmpty {α : Type} {l : List α}
    (h : ¬ l.isEmpty = true) : l ≠ [] :=
  fun hnil => h (by rw [hnil]; rfl)

/-- The entering column selected from the candidate pairs built by the
loop's scan satisfies the scan's predicate. -/
theorem pick_entering_prop (ubl : Bool) (n : Nat) (q : Nat → Prop)
    [DecidablePred q] (g : Nat → ℚ)
    (h1 : ((List.range n).filterMap
        (fun j => if q j then some (j, g j) else none)) ≠ []) :
    q (pick_entering ubl ((List.range n).filterMap
        (fun j => if q j then some (j, g j) else none))) := by
  have hmem := pick_entering_mem_fst ubl _ h1
  rcases List.mem_map.mp hmem with ⟨p, hp, hfst⟩
  rcases List.mem_filterMap.mp hp with ⟨x, _, hx⟩
  by_cases hq : q x
  · rw [if_pos hq] at hx
    have hpx : p = (x, g x) := (Option.some.injEq _ _).mp hx.symm
    rw [← hfst, hpx]
    exact hq
  · rw [if_neg hq] at hx
    exact absurd hx (by simp)

/-- C6 core: the pivoting loop never selects a forbidden entering column
(beyond the initial ghost log), and the forbidden columns present in the
basis never increase. -/
theorem run_simplex_loop_forbidden (A : Mat) (b c : Vec)
    (opts : SolveOptions) (ubl : Bool) (max_iter : Nat) (forb : List Nat) :
    ∀ fuel basis iters ghost, (∀ j ∈ ghost, j ∉ forb) →
      (∀ j ∈ (run_simplex_loop A b c opts ubl max_iter forb fuel basis iters
          ghost).enterings, j ∉ forb) ∧
      (∀ j ∈ (run_simplex_loop A b c opts ubl max_iter forb fuel basis iters
          ghost).basis, j ∈ forb → j ∈ basis) := by
  intro fuel
  induction fuel with
  | zero =>
      intro basis iters ghost hg
      exact ⟨hg, fun j hj _ => hj⟩
  | succ n ih =>
      intro basis iters ghost hg
      simp only [run_simplex_loop]
      split
      · exact ⟨hg, fun j hj _ => hj⟩
      next h1 =>
        split
        · exact ⟨hg, fun j hj _ => hj⟩
        next h2 =>
          split
          · exact ⟨hg, fun j hj _ => hj⟩
          next h3 =>
            split
            · exact ⟨hg, fun j hj _ => hj⟩
            next r0 rrest hr =>
              have hprop := pick_entering_prop ubl A.ncols _ _
                (ne_nil_of_not_isEmpty h1)
              obtain ⟨iha, ihb⟩ := ih _ (iters + 1) _ (by
                intro j hj
                rcases List.mem_append.mp hj with hj | hj
                · exact hg j hj
                · rw [List.mem_singleton.mp hj]
                  exact hprop.2.1)
              refine ⟨iha, fun j hj hf => ?_⟩
              rcases List.mem_or_eq_of_mem_set (ihb j hj hf) with h | h
              · exact h
              · exact absurd hf (h ▸ hprop.2.1)

/-- C6: during Phase II no artificial column ever enters the basis — every
entering column of every pivot lies outside the artificial-index set — and
the artificial columns present in the basis never grow beyond those Phase
I handed over. -/
theorem c6_theorem (A : Mat) (b c : Vec) (basis : List Nat) (sense : Sense)
    (meta : Meta) (ubl : Bool) (opts : SolveOptions) (mi : Nat) :
    (∀ j ∈ (phase_II A b c basis sense meta ubl opts mi).enterings,
        j ∉ meta.artificial_indices) ∧
    (∀ j ∈ (phase_II A b c basis sense meta ubl opts mi).basis,
        j ∈ meta.artificial_indices → j ∈ basis) := by
  simp only [phase_II, run_simplex, Option.getD_some]
  split
  · split
    · exact ⟨fun j hj => by simp at hj, fun j hj _ => hj⟩
    · exact ⟨fun j hj => by simp at hj, fun j hj _ => hj⟩
  · exact run_simplex_loop_forbidden A b c opts ubl _ _ _ basis 0 []
      (fun j hj => by simp at hj)

/-- C6 witness: the statement at a concrete Phase II instance. -/
theorem c6_witness :
    (∀ j ∈ (phase_II c6_A c6_b c6_c c6_basis .max c6_meta false opts20
        5).enterings, j ∉ c6_meta.artificial_indices) ∧
    (∀ j ∈ (phase_II c6_A c6_b c6_c c6_basis .max c6_meta false opts20
        5).basis, j ∈ c6_meta.artificial_indices → j ∈ c6_basis) :=
  c6_theorem c6_A c6_b c6_c c6_basis .max c6_meta false opts20 5

/-- Lookup after replacing a present key. -/
theorem mapSet_lookup {β : Type} (k : String) (v : β) :
    ∀ (l : List (String × β)),
      (l.map (fun p => if p.1 == k then (k, v) else p)).lookup k =
        if l.any (fun p => p.1 == k) then some v else none := by
  intro l
  induction l with
  | nil => simp
  | cons p t ih =>
      rcases p with ⟨pk, pv⟩
      simp only [List.map_cons, List.any_cons]
      by_cases hpk : pk = k
      · subst hpk
        rw [if_pos (by simp), List.lookup_cons]
        simp
      · have hb : (pk == k) = false := by simpa using hpk
        have hb2 : (k == pk) = false := by simpa using (Ne.symm hpk)
        rw [if_neg (by simp [hpk]), List.lookup_cons]
        simp only [hb2, hb, Bool.false_or]
        exact ih

/-- Lookup in an append whose left part misses the key. -/
theorem appendNew_lookup {β : Type} (k : String) (v : β)
    (l : List (String × β)) (hall : ∀ p ∈ l, (p.1 == k) = false) :
    (l ++ [(k, v)]).lookup k = some v := by
  rw [List.lookup_append]
  have hnone : l.lookup k = none := by
    rw [List.lookup_eq_none_iff]
    intro p hp
    have := hall p hp
    simp only [bne_iff_ne, ne_eq]
    intro hc
    rw [hc] at this
    simp at this
  rw [hnone]
  simp [List.lookup_cons]

/-- Python dict assignment: looking up the assigned key yields the new
value. -/
theorem assocSet_lookup_self {β : Type} (l : List (String × β)) (k : String)
    (v : β) : (assocSet l k v).lookup k = some v := by
  by_cases h : l.any (fun p => p.1 == k)
  · rw [assocSet, if_pos h, mapSet_lookup, if_pos h]
  · rw [assocSet, if_neg h]
    refine appendNew_lookup k v l ?_
    intro p hp
    by_contra hc
    exact h (List.any_eq_true.mpr ⟨p, hp, by simpa using hc⟩)

/-- Auxiliary: replacing the bindings of key `k` leaves other keys'
lookups untouched. -/
theorem mapSet_lookup_ne {β : Type} (k k' : String) (v : β) (hkk : k ≠ k') :
    ∀ (l : List (String × β)),
      (l.map (fun p => if p.1 == k then (k, v) else p)).lookup k' =
        l.lookup k' := by
  have hkk' : (k' == k) = false := by simpa using (Ne.symm hkk)
  intro l
  induction l with
  | nil => rfl
  | cons p t ih =>
      rcases p with ⟨pk, pv⟩
      simp only [List.map_cons]
      by_cases hpk : pk = k
      · have h1 : (pk == k) = true := by simp [hpk]
        have h2 : (k' == pk) = false := by rw [hpk]; exact hkk'
        rw [if_pos h1, List.lookup_cons, List.lookup_cons]
        simp only [hkk', h2]
        exact ih
      · rw [if_neg (by simp [hpk]), List.lookup_cons, List.lookup_cons]
        cases hpk' : (k' == pk)
        · simp only [hpk']
          exact ih
        · simp only [hpk']

/-- Python dict assignment: other keys are untouched. -/
theorem assocSet_lookup_ne {β : Type} (l : List (String × β))
    (k k' : String) (v : β) (hkk : k ≠ k') :
    (assocSet l k v).lookup k' = l.lookup k' := by
  by_cases h : l.any (fun p => p.1 == k)
  · rw [assocSet, if_pos h]
    exact mapSet_lookup_ne k k' v hkk l
  · rw [assocSet, if_neg h, List.lookup_append]
    have hsing : ([(k, v)] : List (String × β)).lookup k' = none := by
      simp [List.lookup_cons, show (k' == k) = false by
        simpa using (Ne.symm hkk)]
    rw [hsing]
    cases l.lookup k' <;> rfl

/-- Variables whose names never appear later keep their component and
offset bindings through the rest of the variable pass. -/
theorem buildVars_preserves (nm : String) :
    ∀ (l : List Variable) (s s' : VarState), buildVars l s = .ok s' →
      (∀ w ∈ l, w.name ≠ nm) →
      s'.components.lookup nm = s.components.lookup nm ∧
      s'.offsets.lookup nm = s.offsets.lookup nm := by
  intro l
  induction l with
  | nil =>
      intro s s' hok _
      simp only [buildVars] at hok
      cases hok
      exact ⟨rfl, rfl⟩
  | cons var rest ih =>
      intro s s' hok hall
      have hname : var.name ≠ nm := hall var (List.mem_cons_self var rest)
      simp only [buildVars] at hok
      split at hok
      · exact absurd hok (by simp)
      · obtain ⟨h1, h2⟩ := ih _ s' hok
          (fun w hw => hall w (List.mem_cons_of_mem var hw))
        constructor
        · rw [h1]
          cases hlb : var.lb <;> cases hub : var.ub <;>
            simp only [hlb, hub] <;>
            exact assocSet_lookup_ne _ _ _ _ hname
        · rw [h2]
          cases hlb : var.lb <;> cases hub : var.ub <;>
            simp only [hlb, hub] <;>
            exact assocSet_lookup_ne _ _ _ _ hname

/-- C3 core: a variable with an unspecified lower bound is compiled to the
free split — components `[(i, +1), (i+1, −1)]` and offset 0. -/
theorem buildVars_free :
    ∀ (l : List Variable) (s s' : VarState), buildVars l s = .ok s' →
      (l.map (fun w => w.name)).Nodup →
      ∀ v ∈ l, v.lb = none →
      ∃ i, s'.components.lookup v.name = some [(i, 1), (i + 1, -1)] ∧
        s'.offsets.lookup v.name = some 0 := by
  intro l
  induction l with
  | nil => intro s s' _ _ v hv; exact absurd hv (List.not_mem_nil v)
  | cons var rest ih =>
      intro s s' hok hnd v hv hlb
      simp only [buildVars] at hok
      split at hok
      · exact absurd hok (by simp)
      · rcases List.mem_cons.mp hv with rfl | hv2
        · have hnotin : ∀ w ∈ rest, w.name ≠ v.name := by
            intro w hw heq
            have hnd2 : v.name ∉ rest.map (fun z => z.name) := by
              rw [List.map_cons] at hnd
              exact (List.nodup_cons.mp hnd).1
            exact hnd2 (by
              simpa [heq] using List.mem_map_of_mem (fun z => z.name) hw)
          obtain ⟨h1, h2⟩ := buildVars_preserves v.name rest _ s' hok hnotin
          refine ⟨s.cols.length, ?_, ?_⟩
          · rw [h1]
            simp only [hlb]
            cases hub : v.ub <;> simp only [hub] <;>
              exact assocSet_lookup_self _ _ _
          · rw [h2]
            simp only [hlb]
            cases hub : v.ub <;> simp only [hub] <;>
              exact assocSet_lookup_self _ _ _
        · exact ih _ s' hok (List.nodup_cons.mp hnd).2 v hv2 hlb

/-- C3 (amended): a variable whose lower bound is left unspecified is
treated as a free variable: standardisation records the split
`v = v⁺ − v⁻` — components `[(i, +1), (i+1, −1)]` over two fresh
non-negative columns — with offset 0, not a default lower bound of 0. -/
theorem c3_amended_theorem (model : LPModel) (v : Variable)
    (hmem : v ∈ model.vars) (hlb : v.lb = none)
    (hnodup : (model.vars.map (fun w => w.name)).Nodup)
    (hok : buildOk model = true) :
    ∃ i, (stdMetaOf model).components.lookup v.name =
        some [(i, 1), (i + 1, -1)] ∧
      (stdMetaOf model).offsets.lookup v.name = some 0 := by
  unfold buildOk at hok
  unfold stdMetaOf
  cases hb : build_standard_form model with
  | error msg => rw [hb] at hok; simp [Except.toOption] at hok
  | ok sf =>
      simp only [build_standard_form] at hb
      cases h1 : buildVars model.vars {} with
      | error e => rw [h1] at hb; simp at hb
      | ok s1 =>
          rw [h1] at hb
          dsimp only [] at hb
          cases h2 : buildObjective s1.components s1.offsets
              model.objective.terms model.objective.constant
              (List.replicate s1.cols.length 0) with
          | error e => rw [h2] at hb; simp at hb
          | ok pr =>
              rcases pr with ⟨objc, objv⟩
              rw [h2] at hb
              dsimp only [] at hb
              cases h3 : buildRows s1.components s1.offsets
                  (model.constraints.map (fun cons =>
                    { name := cons.name
                      terms := cons.lhs.terms.map (fun t => (t.var, t.coef))
                      constant := cons.lhs.constant
                      cmp := cons.cmp
                      rhs := cons.rhs
                      source := "model" })
                    ++ s1.extra_constraints) { cols := s1.cols } with
              | error e => rw [h3] at hb; simp at hb
              | ok s3 =>
                  rw [h3] at hb
                  dsimp only [] at hb
                  simp only [Except.ok.injEq] at hb
                  subst hb
                  exact buildVars_free model.vars {} s1 h1 hnodup v hmem hlb

/-- C3 witness: the amended statement at `free_model`. -/
theorem c3_witness :
    ∃ i, (stdMetaOf free_model).components.lookup "x" =
        some [(i, 1), (i + 1, -1)] ∧
      (stdMetaOf free_model).offsets.lookup "x" = some 0 :=
  c3_amended_theorem free_model { name := "x" } (by decide) rfl (by decide)
    (by with_unfolding_all decide)

/-- On normal exit the branch-and-bound loop has emptied its stack or
reached the node budget, provided it started with enough fuel (`mip_trace`
supplies `max_nodes`). -/
theorem bnb_loop_exit (opts bopts : SolveOptions) (sfac : ℚ) (mx : Nat) :
    ∀ fuel st, mx ≤ st.nodes + fuel →
      ∀ stf, finishedState (bnb_loop opts bopts sfac mx fuel st) = some stf →
        stf.stack = [] ∨ mx ≤ stf.nodes := by
  intro fuel
  induction fuel with
  | zero =>
      intro st hle stf hfin
      simp only [bnb_loop, finishedState, Option.some.injEq] at hfin
      subst hfin
      exact Or.inr (by omega)
  | succ n ih =>
      intro st hle stf hfin
      simp only [bnb_loop] at hfin
      cases hst : st.stack with
      | nil =>
          rw [hst] at hfin
          dsimp only [] at hfin
          simp only [finishedState, Option.some.injEq] at hfin
          subst hfin
          exact Or.inl hst
      | cons hd rest =>
          rcases hd with ⟨cur, dep⟩
          rw [hst] at hfin
          dsimp only [] at hfin
          split at hfin
          · rename_i hmx
            simp only [finishedState, Option.some.injEq] at hfin
            subst hfin
            exact Or.inr hmx
          · repeat' split at hfin
            all_goals first
              | (exact ih _ (by show mx ≤ st.nodes + 1 + n; omega) stf hfin)
              | (simp [finishedState] at hfin)

/-- C8: termination statuses of the branch-and-bound driver.  On normal
loop exit: the stack is empty or the budget is exhausted; with no
incumbent the result is infeasible when the stack emptied within budget
and iteration_limit when the budget was reached; with an incumbent the
result is that incumbent returned as optimal (same objective and primal
values). -/
theorem c8_theorem (model : LPModel) (opts : SolveOptions)
    (hint : model.vars.any (fun v => v.is_integer) = true)
    (hfin : (finishedState (mip_trace model opts)).isSome = true) :
    ((mipFinal model opts).stack = [] ∨
      bnb_max_nodes model ≤ (mipFinal model opts).nodes) ∧
    ((mipFinal model opts).best = none →
      (mipFinal model opts).nodes < bnb_max_nodes model →
      (solve_mip_branch_and_cut model opts).status = .infeasible) ∧
    ((mipFinal model opts).best = none →
      bnb_max_nodes model ≤ (mipFinal model opts).nodes →
      (solve_mip_branch_and_cut model opts).status = .iteration_limit) ∧
    (∀ s, (mipFinal model opts).best = some s →
      (solve_mip_branch_and_cut model opts).status = .optimal ∧
      (solve_mip_branch_and_cut model opts).objective_value =
        s.objective_value ∧
      (solve_mip_branch_and_cut model opts).x = s.x) := by
  cases htr : mip_trace model opts with
  | early sol st => rw [htr] at hfin; simp [finishedState] at hfin
  | finished st =>
      have hm : mipFinal model opts = st := by
        unfold mipFinal
        rw [htr]
        rfl
      have hs : solve_mip_branch_and_cut model opts =
          bnb_finalize (bnb_max_nodes model) st := by
        unfold solve_mip_branch_and_cut
        rw [if_neg (by rw [hint]; simp), htr]
      have htr2 := htr
      unfold mip_trace at htr2
      dsimp only [] at htr2
      have hexit := bnb_loop_exit opts { opts with return_duals := false }
        (if model.sense = .max then (1 : ℚ) else -1) (bnb_max_nodes model)
        (bnb_max_nodes model) { stack := [(model, 0)] }
        (by show bnb_max_nodes model ≤ 0 + bnb_max_nodes model; omega)
        st (by rw [htr2]; rfl)
      rw [hm, hs]
      refine ⟨hexit, ?_, ?_, ?_⟩
      · intro hb hn
        unfold bnb_finalize
        rw [hb]
        dsimp only []
        rw [if_neg (by omega)]
      · intro hb hn
        unfold bnb_finalize
        rw [hb]
        dsimp only []
        rw [if_pos hn]
      · intro s hb
        unfold bnb_finalize
        rw [hb]
        exact ⟨rfl, rfl, rfl⟩

set_option maxRecDepth 1000000 in
/-- C8 witness: the statement at `frac_milp_model`. -/
theorem c8_witness :
    ((mipFinal frac_milp_model opts20).stack = [] ∨
      bnb_max_nodes frac_milp_model ≤ (mipFinal frac_milp_model opts20).nodes) ∧
    ((mipFinal frac_milp_model opts20).best = none →
      (mipFinal frac_milp_model opts20).nodes < bnb_max_nodes frac_milp_model →
      (solve_mip_branch_and_cut frac_milp_model opts20).status = .infeasible) ∧
    ((mipFinal frac_milp_model opts20).best = none →
      bnb_max_nodes frac_milp_model ≤ (mipFinal frac_milp_model opts20).nodes →
      (solve_mip_branch_and_cut frac_milp_model opts20).status =
        .iteration_limit) ∧
    (∀ s, (mipFinal frac_milp_model opts20).best = some s →
      (solve_mip_branch_and_cut frac_milp_model opts20).status = .optimal ∧
      (solve_mip_branch_and_cut frac_milp_model opts20).objective_value =
        s.objective_value ∧
      (solve_mip_branch_and_cut frac_milp_model opts20).x = s.x) :=
  c8_theorem frac_milp_model opts20 (by decide)
    (by with_unfolding_all decide)

/-- Membership after replacing the first variable of a given name. -/
theorem mem_setFirstVar :
    ∀ (l : List Variable) (nm : String) (nv : Variable) (w : Variable),
      w ∈ setFirstVar l nm nv → w = nv ∨ w ∈ l := by
  intro l
  induction l with
  | nil => intro nm nv w hw; exact absurd hw (List.not_mem_nil w)
  | cons v rest ih =>
      intro nm nv w hw
      simp only [setFirstVar] at hw
      split at hw
      · rcases List.mem_cons.mp hw with rfl | hw2
        · exact Or.inl rfl
        · exact Or.inr (List.mem_cons_of_mem v hw2)
      · rcases List.mem_cons.mp hw with rfl | hw2
        · exact Or.inr (List.mem_cons_self w rest)
        · rcases ih nm nv w hw2 with h | h
          · exact Or.inl h
          · exact Or.inr (List.mem_cons_of_mem v h)

/-- The variable produced by a successful tightening passes the final
`lb ≤ ub + eps` test. -/
theorem t1_ok_of_check (t1 : Variable)
    (hck : ¬((match t1.lb, t1.ub with
        | some lo, some u => decide (u + bnb_eps < lo)
        | _, _ => false) = true)) :
    ∀ lo u, t1.lb = some lo → t1.ub = some u → lo ≤ u + bnb_eps := by
  intro lo u hl hu
  rw [hl, hu] at hck
  exact le_of_not_lt (fun hlt => hck (decide_eq_true hlt))

/-- Replacing one variable by a consistent-within-eps one keeps the model
consistent within eps, provided the others were strictly consistent. -/
theorem consistent_of_setFirst (mdl : LPModel) (vn : String) (t1 : Variable)
    (hcons : ∀ w ∈ mdl.vars, ∀ lo u, w.lb = some lo → w.ub = some u →
      lo ≤ u)
    (ht1 : ∀ lo u, t1.lb = some lo → t1.ub = some u → lo ≤ u + bnb_eps) :
    ∀ w ∈ setFirstVar mdl.vars vn t1, ∀ lo u, w.lb = some lo →
      w.ub = some u → lo ≤ u + bnb_eps := by
  intro w hw lo u hl hu
  rcases mem_setFirstVar _ _ _ _ hw with rfl | hw2
  · exact ht1 lo u hl hu
  · have h := hcons w hw2 lo u hl hu
    have heps : (0 : ℚ) ≤ bnb_eps := by norm_num [bnb_eps]
    linarith

/-- A successful `_tighten_bound` on a strictly consistent model yields a
model consistent within eps. -/
theorem tighten_bound_consistent (mdl : LPModel) (vn : String)
    (bt : BoundType) (bv : ℚ) (m' : LPModel)
    (h : tighten_bound mdl vn bt bv = some m')
    (hcons : ∀ w ∈ mdl.vars, ∀ lo u, w.lb = some lo → w.ub = some u →
      lo ≤ u) :
    goodEps m' := by
  simp only [tighten_bound] at h
  cases hfind : mdl.vars.find? (fun v => v.name == vn) with
  | none => rw [hfind] at h; exact absurd h (by simp)
  | some target =>
      rw [hfind] at h
      dsimp only [] at h
      repeat' split at h
      all_goals first
        | (simp only [Option.some.injEq] at h
           subst h
           exact consistent_of_setFirst mdl vn _ hcons
             (t1_ok_of_check _ (by assumption)))
        | exact absurd h (by simp)

/-- Standardisation succeeding implies every variable has `lb ≤ ub`. -/
theorem buildVars_consistent :
    ∀ (l : List Variable) (s s' : VarState), buildVars l s = .ok s' →
      ∀ v ∈ l, ∀ lo u, v.lb = some lo → v.ub = some u → lo ≤ u := by
  intro l
  induction l with
  | nil => intro s s' _ v hv; exact absurd hv (List.not_mem_nil v)
  | cons var rest ih =>
      intro s s' hok v hv
      simp only [buildVars] at hok
      split at hok
      · exact absurd hok (by simp)
      · rename_i hchk
        rcases List.mem_cons.mp hv with rfl | hv2
        · intro lo u hl hu
          rw [hl, hu] at hchk
          exact le_of_not_lt (fun hlt => hchk (decide_eq_true hlt))
        · exact ih _ s' hok v hv2

/-- A successful standardisation contains a successful variable pass. -/
theorem build_ok_vars (model : LPModel) (sf : StdForm)
    (h : build_standard_form model = .ok sf) :
    ∃ s1, buildVars model.vars {} = .ok s1 := by
  simp only [build_standard_form] at h
  cases h1 : buildVars model.vars {} with
  | error e => rw [h1] at h; exact absurd h (by simp)
  | ok s1 => exact ⟨s1, rfl⟩

/-- An optimal LP solve implies the model's variables are strictly
consistent (standardisation would have raised otherwise). -/
theorem optimal_consistent (model : LPModel) (opts : SolveOptions)
    (h : (simplex_solve model opts).status = .optimal) :
    ∀ v ∈ model.vars, ∀ lo u, v.lb = some lo → v.ub = some u → lo ≤ u := by
  unfold simplex_solve at h
  cases hb : solveTrace model opts with
  | build_fail msg => rw [hb] at h; simp at h
  | p1_stop r1 =>
      rw [hb] at h
      cases hs : r1.status <;> simp [hs] at h
  | phases sf r1 r2 =>
      have hbuild : ∃ sf0, build_standard_form model = .ok sf0 := by
        unfold solveTrace at hb
        cases hb2 : build_standard_form model with
        | error e => rw [hb2] at hb; exact absurd hb (by simp)
        | ok sf0 => exact ⟨sf0, rfl⟩
      rcases hbuild with ⟨sf0, hsf⟩
      rcases build_ok_vars model sf0 hsf with ⟨s1, h1⟩
      exact buildVars_consistent model.vars {} s1 h1

/-- C10 core: every model the branch-and-bound loop pushes onto its stack
is consistent within eps. -/
theorem bnb_loop_pushed (opts bopts : SolveOptions) (sfac : ℚ)
    (mx : Nat) :
    ∀ fuel st, (∀ mm ∈ st.pushed, goodEps mm) →
      ∀ mm ∈ (outState (bnb_loop opts bopts sfac mx fuel st)).pushed,
        goodEps mm := by
  intro fuel
  induction fuel with
  | zero => intro st hst; exact hst
  | succ n ih =>
      intro st hst
      simp only [bnb_loop]
      cases hstk : st.stack with
      | nil => exact hst
      | cons hd rest =>
          rcases hd with ⟨cur, dep⟩
          dsimp only []
          split
          · exact hst
          · split
            · exact ih _ hst
            · split
              · exact hst
              · split
                · exact ih _ hst
                next hopt =>
                  split
                  · exact ih _ hst
                  · split
                    · exact ih _ hst
                    next vn value heq =>
                      apply ih
                      intro mm hmm
                      have hlpopt : (simplex_solve cur bopts).status =
                          .optimal := by
                        rcases not_or.mp hopt with ⟨h1, _⟩
                        exact not_not.mp h1
                      have hcons := optimal_consistent cur bopts hlpopt
                      rcases List.mem_append.mp hmm with hmm1 | hmm1
                      · rcases List.mem_append.mp hmm1 with hmm2 | hmm2
                        · exact hst mm hmm2
                        · cases hrt : tighten_bound cur vn .lb
                              ((⌈value⌉ : ℤ) : ℚ) with
                          | none => rw [hrt] at hmm2; simp at hmm2
                          | some r =>
                              rw [hrt] at hmm2
                              rw [List.mem_singleton.mp hmm2]
                              exact tighten_bound_consistent cur vn .lb _ r
                                hrt hcons
                      · cases hlt : tighten_bound cur vn .ub
                            ((⌊value⌋ : ℤ) : ℚ) with
                        | none => rw [hlt] at hmm1; simp at hmm1
                        | some l =>
                            rw [hlt] at hmm1
                            rw [List.mem_singleton.mp hmm1]
                            exact tighten_bound_consistent cur vn .ub _ l
                              hlt hcons

/-- C10: every subproblem pushed onto the branch-and-bound stack has
consistent bounds (`lb ≤ ub + 1e-9` for every variable with both bounds),
and a proposed child whose tightening is redundant is never produced:
`_tighten_bound` returns no model when the new upper bound does not
strictly lower the existing one, or the new lower bound does not strictly
raise it. -/
theorem c10_theorem (model : LPModel) (opts : SolveOptions)
    (mdl : LPModel) (vn : String) (bv : ℚ) (t : Variable)
    (hfind : mdl.vars.find? (fun v => v.name == vn) = some t) :
    (∀ mm ∈ (outState (mip_trace model opts)).pushed, goodEps mm) ∧
    (∀ u, t.ub = some u → u ≤ bv + bnb_eps →
      tighten_bound mdl vn .ub bv = none) ∧
    (∀ lo, t.lb = some lo → bv - bnb_eps ≤ lo →
      tighten_bound mdl vn .lb bv = none) := by
  refine ⟨?_, ?_, ?_⟩
  · have h0 : ∀ mm ∈ ({ stack := [(model, 0)] } : BnbState).pushed,
        goodEps mm := by
      intro mm hmm
      simp at hmm
    unfold mip_trace
    exact bnb_loop_pushed opts { opts with return_duals := false } _ _ _ _ h0
  · intro u hu hle
    simp only [tighten_bound, hfind, hu]
    rw [if_pos hle]
  · intro lo hl hle
    simp only [tighten_bound, hfind, hl]
    rw [if_pos hle]

set_option maxRecDepth 1000000 in
/-- C10 witness: the statement at `frac_milp_model` and a concrete
redundant tightening. -/
theorem c10_witness :
    (∀ mm ∈ (outState (mip_trace frac_milp_model opts20)).pushed,
      goodEps mm) ∧
    (∀ u, frac_var.ub = some u → u ≤ 3 + bnb_eps →
      tighten_bound frac_milp_model "x" .ub 3 = none) ∧
    (∀ lo, frac_var.lb = some lo → 3 - bnb_eps ≤ lo →
      tighten_bound frac_milp_model "x" .lb 3 = none) :=
  c10_theorem frac_milp_model opts20 frac_milp_model "x" 3 frac_var
    (by with_unfolding_all decide)

/-- Length of the exact linear solve: one entry per row (the fallback is
fed a right-hand side of the same length). -/
theorem npSolve_length (rows : List (List ℚ)) (v : Vec)
    (hrv : rows.length = v.length) : (npSolve rows v).length = rows.length := by
  by_cases hdt : detL rows = 0
  · simp [npSolve, linSolve, hdt, lstsq_fallback, hrv]
  · simp [npSolve, linSolve, hdt]

/-- The transpose helper produces one row per column index. -/
theorem transposeOf_length (rows : List (List ℚ)) (k : Nat) :
    (transposeOf rows k).length = k := by
  simp [transposeOf]

/-- Shape facts about every exit of the pivoting loop: the status is never
infeasible, the basis keeps its length, and an optimal exit carries one
dual per basis entry. -/
theorem run_simplex_loop_shape (A : Mat) (b c : Vec) (opts : SolveOptions)
    (ubl : Bool) (max_iter : Nat) (forb : List Nat) :
    ∀ fuel basis iters ghost,
      (run_simplex_loop A b c opts ubl max_iter forb fuel basis iters
        ghost).status ≠ .infeasible ∧
      (run_simplex_loop A b c opts ubl max_iter forb fuel basis iters
        ghost).basis.length = basis.length ∧
      ((run_simplex_loop A b c opts ubl max_iter forb fuel basis iters
          ghost).status = .optimal →
        (run_simplex_loop A b c opts ubl max_iter forb fuel basis iters
          ghost).duals.length = basis.length) := by
  intro fuel
  induction fuel with
  | zero =>
      intro basis iters ghost
      refine ⟨by simp [run_simplex_loop], rfl, ?_⟩
      intro h
      simp [run_simplex_loop] at h
  | succ n ih =>
      intro basis iters ghost
      simp only [run_simplex_loop]
      split
      · refine ⟨by simp, rfl, fun _ => ?_⟩
        show (npSolve (transposeOf (subCols A basis) basis.length)
          (basis.map (fun j => c.getD j 0))).length = basis.length
        rw [npSolve_length _ _ (by simp [transposeOf_length])]
        exact transposeOf_length _ _
      · split
        · exact ⟨by simp, rfl, fun h => by simp at h⟩
        · split
          · exact ⟨by simp, rfl, fun h => by simp at h⟩
          · split
            · exact ⟨by simp, rfl, fun h => by simp at h⟩
            · obtain ⟨ih1, ih2, ih3⟩ := ih (basis.set _ _) (iters + 1) _
              exact ⟨ih1, by rw [ih2, List.length_set],
                fun h => by rw [ih3 h, List.length_set]⟩

/-- Shape facts about `_run_simplex`: never infeasible, basis length
preserved, and an optimal result carries one dual per row (none when
`m = 0`). -/
theorem run_simplex_shape (A : Mat) (b c : Vec) (basis : List Nat)
    (opts : SolveOptions) (ubl : Bool) (mi : Option Nat)
    (forb : Option (List Nat)) :
    (run_simplex A b c basis opts ubl mi forb).status ≠ .infeasible ∧
    (run_simplex A b c basis opts ubl mi forb).basis.length =
      basis.length ∧
    ((run_simplex A b c basis opts ubl mi forb).status = .optimal →
      (run_simplex A b c basis opts ubl mi forb).duals.length =
        (if A.rows.length = 0 then 0 else basis.length)) := by
  simp only [run_simplex]
  split
  next hm =>
    split
    · exact ⟨by simp, rfl, fun _ => by simp [hm]⟩
    · exact ⟨by simp, rfl, fun h => by simp at h⟩
  next hm =>
    obtain ⟨h1, h2, h3⟩ := run_simplex_loop_shape A b c opts ubl
      (max (mi.getD opts.max_iters) 1) (forb.getD [])
      (max (mi.getD opts.max_iters) 1 + 1) basis 0 []
    exact ⟨h1, h2, fun h => h3 h⟩

/-- `_phase_I` preserves the basis length. -/
theorem phase_I_basis_length (A : Mat) (b c : Vec) (basis : List Nat)
    (meta : Meta) (ubl : Bool) (opts : SolveOptions) :
    (phase_I A b c basis meta ubl opts).basis.length = basis.length := by
  simp only [phase_I]
  split
  · rfl
  · have h := (run_simplex_shape A b
      (c.enum.map (fun p =>
        if p.1 ∈ meta.artificial_indices then (-1 : ℚ) else 0))
      basis opts ubl (some opts.max_iters) none).2.1
    split <;> (try split) <;> simpa using h

/-- `buildRow` adds exactly one row and one basis entry. -/
theorem buildRow_len (comps : List (String × List (Nat × ℚ)))
    (offs : List (String × ℚ)) (s : RowState) (spec : ConstraintSpec)
    (s' : RowState) (h : buildRow comps offs s spec = .ok s') :
    s'.basis.length = s.basis.length + 1 ∧
    s'.rowsEnt.length = s.rowsEnt.length + 1 := by
  simp only [buildRow] at h
  cases hexp : expandTerms spec.name comps offs spec.terms []
      spec.constant with
  | error e => rw [hexp] at h; exact absurd h (by simp)
  | ok pr =>
      rcases pr with ⟨ent0, shift⟩
      rw [hexp] at h
      dsimp only [] at h
      repeat' split at h
      all_goals first
        | (simp only [Except.ok.injEq] at h
           subst h
           constructor <;> simp)
        | exact absurd h (by simp)

/-- `buildRows` keeps the basis and the row list the same length. -/
theorem buildRows_len (comps : List (String × List (Nat × ℚ)))
    (offs : List (String × ℚ)) :
    ∀ (specs : List ConstraintSpec) (s s' : RowState),
      buildRows comps offs specs s = .ok s' →
      s.basis.length = s.rowsEnt.length →
      s'.basis.length = s'.rowsEnt.length := by
  intro specs
  induction specs with
  | nil =>
      intro s s' h heq
      simp only [buildRows] at h
      cases h
      exact heq
  | cons spec rest ih =>
      intro s s' h heq
      simp only [buildRows] at h
      cases h1 : buildRow comps offs s spec with
      | error e => rw [h1] at h; exact absurd h (by simp)
      | ok s1 =>
          rw [h1] at h
          obtain ⟨hb, hr⟩ := buildRow_len comps offs s spec s1 h1
          exact ih s1 s' h (by omega)

/-- The standard form has one initial basis entry per matrix row. -/
theorem build_basis_rows (model : LPModel) (sf : StdForm)
    (h : build_standard_form model = .ok sf) :
    sf.basis.length = sf.A.rows.length := by
  simp only [build_standard_form] at h
  cases h1 : buildVars model.vars {} with
  | error e => rw [h1] at h; exact absurd h (by simp)
  | ok s1 =>
      rw [h1] at h
      dsimp only [] at h
      cases h2 : buildObjective s1.components s1.offsets
          model.objective.terms model.objective.constant
          (List.replicate s1.cols.length 0) with
      | error e => rw [h2] at h; exact absurd h (by simp)
      | ok pr =>
          rcases pr with ⟨objc, objv⟩
          rw [h2] at h
          dsimp only [] at h
          cases h3 : buildRows s1.components s1.offsets
              (model.constraints.map (fun cons =>
                { name := cons.name
                  terms := cons.lhs.terms.map (fun t => (t.var, t.coef))
                  constant := cons.lhs.constant
                  cmp := cons.cmp
                  rhs := cons.rhs
                  source := "model" })
                ++ s1.extra_constraints) { cols := s1.cols } with
          | error e => rw [h3] at h; exact absurd h (by simp)
          | ok s3 =>
              rw [h3] at h
              dsimp only [] at h
              simp only [Except.ok.injEq] at h
              subst h
              have := buildRows_len s1.components s1.offsets _ _ s3 h3 rfl
              simpa using this

/-- Characterisation of a full two-phase trace: the standard form comes
from `build_standard_form` and the phase results are the corresponding
calls. -/
theorem trace_phases_eq (model : LPModel) (opts : SolveOptions)
    (sf : StdForm) (r1 : P1Res) (r2 : RunResult)
    (htr : solveTrace model opts = .phases sf r1 r2) :
    build_standard_form model = .ok sf ∧
    r1 = phase_I sf.A sf.b sf.c sf.basis sf.meta
      (decide (opts.pivot_rule = .bland)) opts ∧
    r2 = phase_II sf.A sf.b sf.c r1.basis sf.sense sf.meta
      (decide (opts.pivot_rule = .bland)) opts
      (max (opts.max_iters - r1.iterations) 1) := by
  unfold solveTrace at htr
  cases hb : build_standard_form model with
  | error e => rw [hb] at htr; exact absurd htr (by simp)
  | ok sf0 =>
      rw [hb] at htr
      dsimp only [] at htr
      cases hs : (phase_I sf0.A sf0.b sf0.c sf0.basis sf0.meta
          (decide (opts.pivot_rule = .bland)) opts).status with
      | feasible =>
          rw [hs] at htr
          dsimp only [] at htr
          injection htr with h1 h2 h3
          subst h1
          subst h2
          subst h3
          exact ⟨rfl, rfl, rfl⟩
      | infeasible => rw [hs] at htr; exact absurd htr (by simp)
      | iteration_limit => rw [hs] at htr; exact absurd htr (by simp)
      | unbounded => rw [hs] at htr; exact absurd htr (by simp)

/-- C4 core (LP side): an optimal `simplex_solve` populates the primal
and reduced-cost maps, and populates the duals map exactly when requested
and the standard form has at least one row. -/
theorem lp_optimal_fields (model : LPModel) (opts : SolveOptions)
    (h : (simplex_solve model opts).status = .optimal) :
    (simplex_solve model opts).x.isSome = true ∧
    (simplex_solve model opts).reduced_costs.isSome = true ∧
    ((simplex_solve model opts).duals.isSome = true ↔
      (opts.return_duals = true ∧ 0 < stdRowCount model)) := by
  unfold simplex_solve at h ⊢
  cases htr : solveTrace model opts with
  | build_fail msg => rw [htr] at h; simp at h
  | p1_stop r1 =>
      rw [htr] at h
      cases hs : r1.status <;> simp [hs] at h
  | phases sf r1 r2 =>
      rw [htr] at h
      dsimp only [] at h
      obtain ⟨hb, hr1, hr2⟩ := trace_phases_eq model opts sf r1 r2 htr
      have hshape := run_simplex_shape sf.A sf.b sf.c r1.basis opts
        (decide (opts.pivot_rule = .bland))
        (some (max (opts.max_iters - r1.iterations) 1))
        (some sf.meta.artificial_indices)
      rw [show run_simplex sf.A sf.b sf.c r1.basis opts
          (decide (opts.pivot_rule = .bland))
          (some (max (opts.max_iters - r1.iterations) 1))
          (some sf.meta.artificial_indices) = r2 from by rw [hr2]; rfl]
        at hshape
      cases hs2 : r2.status with
      | iteration_limit => rw [hs2] at h; simp at h
      | unbounded => rw [hs2] at h; simp at h
      | infeasible => exact absurd hs2 hshape.1
      | optimal =>
          dsimp only []
          rw [hs2]
          dsimp only []
          refine ⟨rfl, rfl, ?_⟩
          have hlen := hshape.2.2 hs2
          have hbl : r1.basis.length = sf.basis.length := by
            rw [hr1]
            exact phase_I_basis_length sf.A sf.b sf.c sf.basis sf.meta
              (decide (opts.pivot_rule = .bland)) opts
          have hbr : sf.basis.length = sf.A.rows.length :=
            build_basis_rows model sf hb
          have hrc : stdRowCount model = sf.A.rows.length := by
            unfold stdRowCount
            rw [hb]
          simp only [map_duals]
          by_cases hrd : opts.return_duals = true
          · by_cases hm : sf.A.rows.length = 0
            · have hdn : r2.duals = [] := by
                have : r2.duals.length = 0 := by rw [hlen, if_pos hm]
                exact List.eq_nil_of_length_eq_zero this
              simp [hdn, hrd, hrc, hm]
            · have hne : r2.duals ≠ [] := by
                intro hnil
                rw [hnil] at hlen
                rw [if_neg hm] at hlen
                rw [hbl, hbr] at hlen
                exact hm (by simpa using hlen.symm)
              have hie : r2.duals.isEmpty = false := by
                simpa [List.isEmpty_eq_false] using hne
              simp [hrd, hie, hrc, Nat.pos_of_ne_zero hm]
          · simp [hrd]

/-- The early return of the branch-and-bound loop is always the unbounded
solution. -/
theorem bnb_loop_early_status (opts bopts : SolveOptions) (sfac : ℚ)
    (mx : Nat) :
    ∀ fuel st sol st',
      bnb_loop opts bopts sfac mx fuel st = .early sol st' →
      sol.status = .unbounded := by
  intro fuel
  induction fuel with
  | zero => intro st sol st' h; simp [bnb_loop] at h
  | succ n ih =>
      intro st sol st' h
      simp only [bnb_loop] at h
      cases hstk : st.stack with
      | nil => rw [hstk] at h; exact absurd h (by simp)
      | cons hd rest =>
          rcases hd with ⟨cur, dep⟩
          rw [hstk] at h
          dsimp only [] at h
          repeat' split at h
          all_goals first
            | exact ih _ _ _ h
            | (simp only [BnbOut.early.injEq] at h
               exact h.1 ▸ rfl)
            | exact absurd h (by simp)

/-- The incumbent's primal map stays populated through the loop. -/
theorem bnb_loop_best_x (opts bopts : SolveOptions) (sfac : ℚ) (mx : Nat) :
    ∀ fuel st, (∀ s, st.best = some s → s.x.isSome = true) →
      ∀ s, (outState (bnb_loop opts bopts sfac mx fuel st)).best = some s →
        s.x.isSome = true := by
  intro fuel
  induction fuel with
  | zero => intro st hst; exact hst
  | succ n ih =>
      intro st hst
      simp only [bnb_loop]
      cases hstk : st.stack with
      | nil => exact hst
      | cons hd rest =>
          rcases hd with ⟨cur, dep⟩
          dsimp only []
          split
          · exact hst
          · split
            · exact ih _ hst
            · split
              · exact hst
              · split
                · exact ih _ hst
                next hopt =>
                  split
                  · exact ih _ hst
                  · split
                    · apply ih
                      intro s hs
                      simp only [Option.some.injEq] at hs
                      have hlpopt : (simplex_solve cur bopts).status =
                          .optimal := by
                        rcases not_or.mp hopt with ⟨h1, _⟩
                        exact not_not.mp h1
                      rw [← hs]
                      exact (lp_optimal_fields cur bopts hlpopt).1
                    · exact ih _ hst

/-- C4 core (MILP side): an optimal branch-and-bound solve carries the
incumbent's primal map and strips reduced costs and duals. -/
theorem mip_optimal_fields (model : LPModel) (opts : SolveOptions)
    (hint : model.vars.any (fun v => v.is_integer) = true)
    (hopt : (solve_mip_branch_and_cut model opts).status = .optimal) :
    (solve_mip_branch_and_cut model opts).x.isSome = true ∧
    (solve_mip_branch_and_cut model opts).reduced_costs = none ∧
    (solve_mip_branch_and_cut model opts).duals = none := by
  have hs : solve_mip_branch_and_cut model opts =
      (match mip_trace model opts with
       | .early sol _ => sol
       | .finished st => bnb_finalize (bnb_max_nodes model) st) := by
    unfold solve_mip_branch_and_cut
    rw [if_neg (by rw [hint]; simp)]
  have htr2 : bnb_loop opts { opts with return_duals := false }
      (if model.sense = .max then (1 : ℚ) else -1) (bnb_max_nodes model)
      (bnb_max_nodes model) { stack := [(model, 0)] } =
      mip_trace model opts := by
    unfold mip_trace
    rfl
  cases htr : mip_trace model opts with
  | early sol st =>
      have hearly : sol.status = .unbounded :=
        bnb_loop_early_status _ _ _ _ _ _ sol st (by rw [htr2, htr])
      rw [hs, htr] at hopt
      dsimp only [] at hopt
      simp [hopt] at hearly
  | finished st =>
      rw [hs, htr] at hopt ⊢
      dsimp only [] at hopt ⊢
      cases hb : st.best with
      | none =>
          unfold bnb_finalize at hopt
          rw [hb] at hopt
          dsimp only [] at hopt
          split at hopt <;> simp at hopt
      | some s =>
          unfold bnb_finalize at hopt ⊢
          rw [hb] at hopt ⊢
          dsimp only [] at hopt ⊢
          refine ⟨?_, rfl, rfl⟩
          refine bnb_loop_best_x opts { opts with return_duals := false }
            (if model.sense = .max then (1 : ℚ) else -1)
            (bnb_max_nodes model) (bnb_max_nodes model)
            { stack := [(model, 0)] } ?_ s ?_
          · intro s0 hs0
            simp at hs0
          · rw [htr2, htr]
            exact hb

/-- C4 (amended): an optimal `simplex_solve` populates the primal and
reduced-cost maps and populates duals iff requested and at least one
standard-form row exists; an optimal branch-and-bound MILP solve (some
integer variable) populates the primal map but always returns null
reduced costs and duals. -/
theorem c4_amended_theorem (model : LPModel) (opts : SolveOptions) :
    ((simplex_solve model opts).status = .optimal →
      (simplex_solve model opts).x.isSome = true ∧
      (simplex_solve model opts).reduced_costs.isSome = true ∧
      ((simplex_solve model opts).duals.isSome = true ↔
        (opts.return_duals = true ∧ 0 < stdRowCount model))) ∧
    (model.vars.any (fun v => v.is_integer) = true →
      (solve_mip_branch_and_cut model opts).status = .optimal →
      (solve_mip_branch_and_cut model opts).x.isSome = true ∧
      (solve_mip_branch_and_cut model opts).reduced_costs = none ∧
      (solve_mip_branch_and_cut model opts).duals = none) :=
  ⟨fun h => lp_optimal_fields model opts h,
   fun hint hopt => mip_optimal_fields model opts hint hopt⟩

set_option maxRecDepth 1000000 in
/-- C4 witness: the MILP side of the amended statement at
`milp_model`. -/
theorem c4_witness :
    (solve_mip_branch_and_cut milp_model opts20).x.isSome = true ∧
    (solve_mip_branch_and_cut milp_model opts20).reduced_costs = none ∧
    (solve_mip_branch_and_cut milp_model opts20).duals = none :=
  (c4_amended_theorem milp_model opts20).2 (by decide)
    (by with_unfolding_all decide)

/-- Entrywise negation distributes over `getD` at default 0. -/
theorem getD_negVec (v : Vec) (i : Nat) :
    (negVec v).getD i 0 = -(v.getD i 0) := by
  induction v generalizing i with
  | nil => simp [negVec]
  | cons a t ih =>
      cases i with
      | zero => simp [negVec]
      | succ n => simpa [negVec] using ih n

/-- Entrywise negation commutes with `set`. -/
theorem set_negVec (v : Vec) (i : Nat) (x : ℚ) :
    (negVec v).set i (-x) = negVec (v.set i x) := by
  induction v generalizing i with
  | nil => simp [negVec]
  | cons a t ih =>
      cases i with
      | zero => simp [negVec]
      | succ n =>
          show -a :: (negVec t).set n (-x) = -a :: negVec (t.set n x)
          rw [ih n]

/-- Negating the scale and the target vector negates the accumulated
objective coefficients. -/
theorem applyComps_neg (cs : List (Nat × ℚ)) :
    ∀ (v : Vec) (α : ℚ),
      applyComps (negVec v) cs (-α) = negVec (applyComps v cs α) := by
  induction cs with
  | nil => intro v α; rfl
  | cons p t ih =>
      intro v α
      simp only [applyComps, List.foldl_cons]
      have h1 : (negVec v).getD p.1 0 + -α * p.2 =
          -(v.getD p.1 0 + α * p.2) := by
        rw [getD_negVec]
        ring
      rw [h1, set_negVec]
      exact ih _ _

/-- Negation of a zero vector. -/
theorem negVec_replicate (n : Nat) :
    negVec (List.replicate n (0 : ℚ)) = List.replicate n 0 := by
  simp [negVec]

/-- Objective pass on the negated objective: same error, negated constant
and negated raw coefficients. -/
theorem buildObjective_neg (comps : List (String × List (Nat × ℚ)))
    (offs : List (String × ℚ)) :
    ∀ (ts : List LinearTerm) (k : ℚ) (v : Vec),
      buildObjective comps offs
        (ts.map (fun t => { t with coef := -t.coef })) (-k) (negVec v) =
      (buildObjective comps offs ts k v).map
        (fun p => (-p.1, negVec p.2)) := by
  intro ts
  induction ts with
  | nil => intro k v; rfl
  | cons t rest ih =>
      intro k v
      simp only [List.map_cons, buildObjective]
      cases hc : comps.lookup t.var with
      | none => rfl
      | some cs =>
          dsimp only []
          have h1 : -k + -t.coef * ((offs.lookup t.var).getD 0) =
              -(k + t.coef * ((offs.lookup t.var).getD 0)) := by ring
          rw [h1, applyComps_neg]
          exact ih _ _

/-- Padding commutes with entrywise negation. -/
theorem padTo_negVec (n : Nat) (v : Vec) :
    padTo n (negVec v) = negVec (padTo n v) := by
  simp [padTo, negVec]

/-- Entrywise negation is an involution. -/
theorem negVec_negVec (v : Vec) : negVec (negVec v) = v := by
  simp [negVec, List.map_map]

/-- Standardising the negated-and-flipped model yields the same standard
form except a flipped sense and a negated objective constant and raw
objective vector; the cost vector `c` is identical — the sense
normalisation cancels the objective negation. -/
theorem build_negFlip (m : LPModel) :
    build_standard_form (negFlipModel m) =
      (build_standard_form m).map (fun sf =>
        { sf with
          sense := match sf.sense with | .min => .max | .max => .min
          meta := { sf.meta with
            objective_constant := -sf.meta.objective_constant
            objective_structural := negVec sf.meta.objective_structural } }) := by
  simp only [build_standard_form, negFlipModel]
  cases h1 : buildVars m.vars {} with
  | error e => rfl
  | ok s1 =>
      dsimp only []
      have hobj := buildObjective_neg s1.components s1.offsets
        m.objective.terms m.objective.constant
        (List.replicate s1.cols.length 0)
      rw [negVec_replicate] at hobj
      rw [hobj]
      cases h2 : buildObjective s1.components s1.offsets m.objective.terms
          m.objective.constant (List.replicate s1.cols.length 0) with
      | error e => rfl
      | ok pr =>
          rcases pr with ⟨K, V⟩
          dsimp only [Except.map]
          cases h3 : buildRows s1.components s1.offsets
              (m.constraints.map (fun cons =>
                { name := cons.name
                  terms := cons.lhs.terms.map (fun t => (t.var, t.coef))
                  constant := cons.lhs.constant
                  cmp := cons.cmp
                  rhs := cons.rhs
                  source := "model" })
                ++ s1.extra_constraints) { cols := s1.cols } with
          | error e => rfl
          | ok s3 =>
              dsimp only []
              cases m.sense <;>
                simp [padTo_negVec, negVec_negVec]

/-- Phase I reads only `artificial_indices` from the metadata, so the two
objective fields are irrelevant to it. -/
theorem phase_I_obj_congr (A : Mat) (b c : Vec) (basis : List Nat)
    (meta : Meta) (q : ℚ) (w : Vec) (ubl : Bool) (opts : SolveOptions) :
    phase_I A b c basis
      { meta with objective_constant := q, objective_structural := w }
      ubl opts = phase_I A b c basis meta ubl opts := rfl

/-- Phase II ignores its sense argument and reads only
`artificial_indices` from the metadata. -/
theorem phase_II_obj_congr (A : Mat) (b c : Vec) (basis : List Nat)
    (s t : Sense) (meta : Meta) (q : ℚ) (w : Vec) (ubl : Bool)
    (opts : SolveOptions) (mx : Nat) :
    phase_II A b c basis s
      { meta with objective_constant := q, objective_structural := w }
      ubl opts mx = phase_II A b c basis t meta ubl opts mx := rfl

/-- Primal reconstruction does not read the objective metadata fields. -/
theorem recon_x_obj_congr (meta : Meta) (q : ℚ) (w x : Vec) :
    reconstruct_original_solution
      { meta with objective_constant := q, objective_structural := w } x =
    reconstruct_original_solution meta x := rfl

/-- Reduced-cost reconstruction does not read the objective metadata
fields. -/
theorem recon_rc_obj_congr (meta : Meta) (q : ℚ) (w r : Vec) :
    reconstruct_reduced_costs
      { meta with objective_constant := q, objective_structural := w } r =
    reconstruct_reduced_costs meta r := rfl

/-- Dual mapping does not read the objective metadata fields. -/
theorem map_duals_obj_congr (meta : Meta) (q : ℚ) (w d : Vec)
    (opts : SolveOptions) :
    map_duals
      { meta with objective_constant := q, objective_structural := w }
      d opts = map_duals meta d opts := rfl

/-- The trace of the negated-and-flipped solve: standardisation, Phase I
and Phase II behave identically (the cost vector `c` is unchanged), so the
trace agrees with the original one except that a `.phases` outcome carries
the flipped-sense standard form with negated objective metadata. -/
theorem solveTrace_negFlip (m : LPModel) (opts : SolveOptions) :
    solveTrace (negFlipModel m) opts =
      match solveTrace m opts with
      | .build_fail msg => .build_fail msg
      | .p1_stop r1 => .p1_stop r1
      | .phases sf r1 r2 =>
          .phases
            { sf with
              sense := match sf.sense with | .min => .max | .max => .min
              meta := { sf.meta with
                objective_constant := -sf.meta.objective_constant
                objective_structural := negVec sf.meta.objective_structural } }
            r1 r2 := by
  simp only [solveTrace]
  rw [build_negFlip]
  cases hb : build_standard_form m with
  | error e => rfl
  | ok sf =>
      dsimp only [Except.map]
      rw [phase_I_obj_congr]
      rw [phase_II_obj_congr sf.A sf.b sf.c _ _ sf.sense sf.meta _ _ _ _]
      cases hs1 : (phase_I sf.A sf.b sf.c sf.basis sf.meta
          (decide (opts.pivot_rule = PivotRule.bland)) opts).status <;> rfl

/-- Full sense symmetry of `simplex_solve`: the negated-and-flipped model
yields the identical solution record except for a negated objective
value. -/
theorem simplex_solve_negFlip (m : LPModel) (opts : SolveOptions) :
    simplex_solve (negFlipModel m) opts =
      { simplex_solve m opts with
        objective_value :=
          (simplex_solve m opts).objective_value.map (fun q => -q) } := by
  simp only [simplex_solve]
  rw [solveTrace_negFlip]
  cases ht : solveTrace m opts with
  | build_fail msg => rfl
  | p1_stop r1 =>
      dsimp only []
      cases hs : r1.status <;> rfl
  | phases sf r1 r2 =>
      dsimp only []
      rw [recon_x_obj_congr, recon_rc_obj_congr, map_duals_obj_congr]
      cases hs2 : r2.status
      case iteration_limit => rfl
      case unbounded => rfl
      case optimal =>
          cases hsn : sf.sense <;>
            · dsimp only []
              simp only [LPSolution.mk.injEq, Option.map,
                Option.some.injEq, and_true, true_and]
              ring
      case infeasible =>
          cases hsn : sf.sense <;>
            · dsimp only []
              simp only [LPSolution.mk.injEq, Option.map,
                Option.some.injEq, and_true, true_and]
              ring

/-- C7: for every problem, solving the model obtained by negating every
objective term coefficient and the objective constant and flipping the
optimisation sense yields the same status, the same primal assignment,
and the exactly negated objective value (hence equal within any
tolerance). -/
theorem c7_theorem (m : LPModel) (opts : SolveOptions) :
    (simplex_solve (negFlipModel m) opts).status =
      (simplex_solve m opts).status ∧
    (simplex_solve (negFlipModel m) opts).x = (simplex_solve m opts).x ∧
    (simplex_solve (negFlipModel m) opts).objective_value =
      (simplex_solve m opts).objective_value.map (fun q => -q) := by
  rw [simplex_solve_negFlip]
  exact ⟨rfl, rfl, rfl⟩

/-- C7 witness: the symmetry instantiated on seed scenario 1. -/
theorem c7_witness :
    (simplex_solve (negFlipModel scen1_model) opts20).status =
      (simplex_solve scen1_model opts20).status ∧
    (simplex_solve (negFlipModel scen1_model) opts20).x =
      (simplex_solve scen1_model opts20).x ∧
    (simplex_solve (negFlipModel scen1_model) opts20).objective_value =
      (simplex_solve scen1_model opts20).objective_value.map
        (fun q => -q) :=
  c7_theorem scen1_model opts20

end MCPOpt
